import Mathlib

/-!
# Connection lifecycle of the two demo servers

Shallow embedding of the two programs of the repository:

* `fiber_lib/6hook/main.cpp` (Model A): `test_accept` and the connection
  handler lambda it registers for every accepted descriptor;
* `fiber_lib/libevent/main.cpp` (Model B): `accept_cb`, `http_read_cb`
  and `delayed_send_cb`.

The operating system is the environment.  Every system call the code
issues is recorded as an event together with the result the environment
gave, and the results are inputs of the embedded functions: the result of
the single `recv`, and a script (a list) with the results of the
successive `send` calls, respectively `accept` calls.  A loop of the
source consumes one scripted result per iteration; when the script is
used up while the loop still wants to issue a call, the run is reported
as `pending` (the function has not returned yet).

The per-thread hook toggle at the top of `test_accept` and of the lambda
touches no descriptor and is not part of the embedding.
-/

namespace CoroutineLib

/-! ## Machine-level constants -/

/-- Value of `EINTR` in the Linux `errno.h`. -/
def EINTR : Nat := 4

/-- Value of `EAGAIN` in the Linux `errno.h`. -/
def EAGAIN : Nat := 11

/-- Value of `EWOULDBLOCK` in the Linux `errno.h` (an alias of `EAGAIN`). -/
def EWOULDBLOCK : Nat := 11

/-- Value of `ECONNRESET` in the Linux `errno.h`. -/
def ECONNRESET : Nat := 104

/-- Value of `EPIPE` in the Linux `errno.h`. -/
def EPIPE : Nat := 32

/-- Number of values of a `size_t` (64-bit target). -/
def SIZE_MOD : Nat := 2 ^ 64

/-- Result of a system call: the returned value and the `errno` it left. -/
structure SysRet where
  ret : Int
  errno : Nat
deriving DecidableEq

/-! ## The response -/

/-- The `static const char *body`. -/
def body : List Char := "Hello, World!".toList

/-- The `strlen` of a string without embedded NUL. -/
def strlen (s : List Char) : Nat := s.length

/-- The `%zu` conversion: decimal digits of a `size_t`. -/
def fmt_zu (n : Nat) : List Char := Nat.toDigits 10 n

/-- The text the format string of the `snprintf` call expands to. -/
def header_fmt (n : Nat) : List Char :=
  "HTTP/1.1 200 OK\r\n".toList ++
  "Content-Type: text/plain\r\n".toList ++
  "Content-Length: ".toList ++ fmt_zu n ++ "\r\n".toList ++
  "Connection: close\r\n\r\n".toList

/-- The call `snprintf(buf, size, ...)`: the buffer receives at most
`size - 1` characters, the return value is the untruncated length. -/
def snprintf (size : Nat) (text : List Char) : List Char × Nat :=
  (text.take (size - 1), text.length)

/-- Contents of `char header[256]` after the `snprintf`. -/
def header : List Char := (snprintf 256 (header_fmt (strlen body))).1

/-- The `int hl` returned by the `snprintf`. -/
def hl : Nat := (snprintf 256 (header_fmt (strlen body))).2

/-- The two buffers a `send` can read from. -/
inductive Buf
  | header
  | body
deriving DecidableEq

/-- Bytes held by a buffer. -/
def bufBytes : Buf → List Char
  | .header => header
  | .body => body

/-- Number of bytes the code sets out to send from a buffer
(`hl`, respectively `strlen(body)`). -/
def bufLen : Buf → Nat
  | .header => hl
  | .body => strlen body

/-! ## Events -/

/-- Operations on one connection, with the results of the system calls.
`send fd buf off len r` is `send(fd, buf + off, len, 0)` returning `r`. -/
inductive Ev
  | recv (fd : Int) (cap : Nat) (r : SysRet)
  | usleep (usec : Nat)
  | send (fd : Int) (buf : Buf) (off len : Nat) (r : SysRet)
  | close (fd : Int)
  | event_del (ev : Nat)
  | evtimer_add (ev : Option Nat) (sec usec : Nat)
  | event_free (ev : Nat)
  | free_ctx
deriving DecidableEq

/-- How the handling of a connection ended. -/
inductive Exit
  | peerClosed
  | sendError
  | sendDone
deriving DecidableEq

/-- A run of a handler: the events so far and, once the handler has
returned, the path it returned by (`none`: still waiting for a result). -/
structure Run where
  trace : List Ev
  exit : Option Exit
deriving DecidableEq

/-- How a send loop was left. -/
inductive LoopExit
  /-- the loop condition became false -/
  | done
  /-- left by the error branch (`close; return` in Model A, `break` in Model B) -/
  | failed
  /-- the script of results is used up, the loop is still running -/
  | pending
deriving DecidableEq

/-- Outcome of a send loop: its events, how it was left, and the results
that remain for the following calls. -/
structure Loop where
  trace : List Ev
  exit : LoopExit
  rest : List SysRet
deriving DecidableEq

/-- Put an event in front of the events of a loop outcome. -/
def Loop.cons (e : Ev) (l : Loop) : Loop := { l with trace := e :: l.trace }

/-! ## Model A: `fiber_lib/6hook/main.cpp` -/

/-- The loop `while (off < len) { m = send(fd, buf + off, len - off, 0); ... }`
of the connection handler, from the value `off` on.  A positive `m`
advances `off`; `m < 0` with `EINTR` or `EAGAIN` repeats the call; anything
else closes the descriptor and returns. -/
def sendLoopA (fd : Int) (b : Buf) (len : Nat) : Nat → List SysRet → Loop
  | off, [] => if off < len then ⟨[], .pending, []⟩ else ⟨[], .done, []⟩
  | off, m :: rs =>
    if off < len then
      if 0 < m.ret then
        (sendLoopA fd b len ((off + m.ret.toNat) % SIZE_MOD) rs).cons (.send fd b off (len - off) m)
      else if m.ret < 0 ∧ (m.errno = EINTR ∨ m.errno = EAGAIN) then
        (sendLoopA fd b len off rs).cons (.send fd b off (len - off) m)
      else
        ⟨[.send fd b off (len - off) m, .close fd], .failed, rs⟩
    else ⟨[], .done, m :: rs⟩

/-- The lambda registered by `test_accept` for an accepted descriptor:
`recv`, `usleep(20000)`, the header loop, the body loop, `close`.
`n` is the result of the `recv`, `buffer` what it stored, `sends` the
results of the successive `send` calls. -/
def conn_handler (fd : Int) (n : SysRet) (_buffer : List Char) (sends : List SysRet) : Run :=
  if n.ret ≤ 0 then
    ⟨[.recv fd 1024 n, .close fd], some .peerClosed⟩
  else
    let h := sendLoopA fd .header hl 0 sends
    match h.exit with
    | .failed => ⟨[.recv fd 1024 n, .usleep 20000] ++ h.trace, some .sendError⟩
    | .pending => ⟨[.recv fd 1024 n, .usleep 20000] ++ h.trace, none⟩
    | .done =>
      let b := sendLoopA fd .body (strlen body) 0 h.rest
      match b.exit with
      | .failed => ⟨[.recv fd 1024 n, .usleep 20000] ++ h.trace ++ b.trace, some .sendError⟩
      | .pending => ⟨[.recv fd 1024 n, .usleep 20000] ++ h.trace ++ b.trace, none⟩
      | .done =>
        ⟨[.recv fd 1024 n, .usleep 20000] ++ h.trace ++ b.trace ++ [.close fd], some .sendDone⟩

/-! ## Model B: `fiber_lib/libevent/main.cpp` -/

/-- The `struct ConnCtx`; `none` is a null event pointer. -/
structure ConnCtx where
  fd : Int
  read_ev : Option Nat
  timer_ev : Option Nat
deriving DecidableEq

/-- The loop `while (left) { n = send(fd, p, left, 0); ... }` of
`delayed_send_cb`; `p` is kept as the distance of the pointer from the start
of the buffer.  A positive `n` advances `p` and shrinks `left`; `n < 0` with
`EINTR`, `EAGAIN` or `EWOULDBLOCK` repeats the call; anything else is a
`break`. -/
def sendLoopB (fd : Int) (b : Buf) : Nat → Nat → List SysRet → Loop
  | _, left, [] => if left ≠ 0 then ⟨[], .pending, []⟩ else ⟨[], .done, []⟩
  | p, left, n :: rs =>
    if left ≠ 0 then
      if 0 < n.ret then
        (sendLoopB fd b (p + n.ret.toNat) ((left + SIZE_MOD - n.ret.toNat % SIZE_MOD) % SIZE_MOD) rs).cons
          (.send fd b p left n)
      else if n.ret < 0 ∧ n.errno = EINTR then
        (sendLoopB fd b p left rs).cons (.send fd b p left n)
      else if n.ret < 0 ∧ (n.errno = EAGAIN ∨ n.errno = EWOULDBLOCK) then
        (sendLoopB fd b p left rs).cons (.send fd b p left n)
      else
        ⟨[.send fd b p left n], .failed, rs⟩
    else ⟨[], .done, n :: rs⟩

/-- The statements that end both callbacks: `close`, the two guarded
`event_free` calls, `free(ctx)`. -/
def cleanup (fd : Int) (ctx : ConnCtx) : List Ev :=
  [.close fd] ++
  (match ctx.read_ev with | some e => [.event_free e] | none => []) ++
  (match ctx.timer_ev with | some e => [.event_free e] | none => []) ++
  [.free_ctx]

/-- The timer callback `delayed_send_cb`: header loop, body loop (entered
also after a `break` of the header loop), then the cleanup. -/
def delayed_send_cb (ctx : ConnCtx) (sends : List SysRet) : Run :=
  let h := sendLoopB ctx.fd .header 0 hl sends
  match h.exit with
  | .pending => ⟨h.trace, none⟩
  | he =>
    let b := sendLoopB ctx.fd .body 0 (strlen body) h.rest
    match b.exit with
    | .pending => ⟨h.trace ++ b.trace, none⟩
    | be =>
      ⟨h.trace ++ b.trace ++ cleanup ctx.fd ctx,
        some (if he = .failed ∨ be = .failed then .sendError else .sendDone)⟩

/-- The read callback `http_read_cb` for the event on descriptor `fd`:
`len` is the result of the `recv`.  The boolean tells whether the timer was
armed (the callback returned without cleaning up). -/
def http_read_cb (fd : Int) (ctx : ConnCtx) (len : SysRet) (_buf : List Char) : List Ev × Bool :=
  if len.ret ≤ 0 then
    (.recv fd 1024 len :: cleanup fd ctx, false)
  else
    (.recv fd 1024 len ::
      ((match ctx.read_ev with | some e => [.event_del e] | none => []) ++
        [.evtimer_add ctx.timer_ev 0 20000]), true)

/-- The callback chain of one connection of Model B.  `accept_cb` creates the
read event on `ctx.fd`, so `http_read_cb` is entered with that descriptor.
Every return of `http_read_cb` leaves the persistent read event deleted or
freed, so it runs once; the one-shot timer it arms makes the loop enter
`delayed_send_cb` once (never, when the timer pointer is null). -/
def callback_chain (ctx : ConnCtx) (len : SysRet) (buf : List Char) (sends : List SysRet) : Run :=
  let r := http_read_cb ctx.fd ctx len buf
  if r.2 then
    match ctx.timer_ev with
    | none => ⟨r.1, none⟩
    | some _ =>
      let d := delayed_send_cb ctx sends
      ⟨r.1 ++ d.trace, d.exit⟩
  else ⟨r.1, some .peerClosed⟩

/-! ## Observations on traces -/

/-- Bytes the peer receives from one event: a `send` that returned `m > 0`
delivered the first `m` bytes at the offset it was issued from. -/
def Ev.delivered : Ev → List Char
  | .send _ b off _ r => if 0 < r.ret then ((bufBytes b).drop off).take r.ret.toNat else []
  | _ => []

/-- Bytes the peer receives over a whole trace, in order. -/
def wire : List Ev → List Char
  | [] => []
  | e :: t => e.delivered ++ wire t

/-- The `send` calls of a trace as (buffer, offset, length) requests. -/
def sendRequests : List Ev → List (Buf × Nat × Nat)
  | [] => []
  | .send _ b off len _ :: t => (b, off, len) :: sendRequests t
  | _ :: t => sendRequests t

/-- Value of a decimal numeral, as a reader of the header parses it. -/
def parseDecimal (ds : List Char) : Nat :=
  ds.foldl (fun acc c => 10 * acc + (c.toNat - 48)) 0

/-! ## The listeners -/

/-- Callbacks Model A registers with `IOManager::addEvent(fd, READ, cb)`. -/
inductive Callback
  | test_accept
  | conn_handler (fd : Int)
deriving DecidableEq

/-- Operations of the listener callbacks. -/
inductive LEv
  | accept (listener : Int) (r : SysRet)
  | addEvent (fd : Int) (cb : Callback)
  | perror
  | make_socket_nonblocking (fd : Int)
  | event_add (ev : Option Nat)
deriving DecidableEq

/-- A run of a listener callback: its events, whether it has returned, and
the `accept` results it has not consumed. -/
structure AcceptRun where
  trace : List LEv
  returned : Bool
  rest : List SysRet
deriving DecidableEq

/-- Put an event in front of the events of a listener run. -/
def AcceptRun.cons (e : LEv) (l : AcceptRun) : AcceptRun := { l with trace := e :: l.trace }

/-- The `for (;;)` loop of `test_accept`: a negative result with `EINTR`
repeats the `accept`, any other negative result leaves the loop, a descriptor
is handed to a new connection handler. -/
def acceptLoop (sock_listen_fd : Int) : List SysRet → AcceptRun
  | [] => ⟨[], false, []⟩
  | fd :: rs =>
    if fd.ret < 0 then
      if fd.errno = EINTR then
        (acceptLoop sock_listen_fd rs).cons (.accept sock_listen_fd fd)
      else if fd.errno = EAGAIN ∨ fd.errno = EWOULDBLOCK then
        ⟨[.accept sock_listen_fd fd], true, rs⟩
      else
        ⟨[.accept sock_listen_fd fd], true, rs⟩
    else
      ((acceptLoop sock_listen_fd rs).cons (.addEvent fd.ret (.conn_handler fd.ret))).cons
        (.accept sock_listen_fd fd)

/-- Model A, `test_accept`: the accept loop, then the listener is registered
again. -/
def test_accept (sock_listen_fd : Int) (accepts : List SysRet) : AcceptRun :=
  let l := acceptLoop sock_listen_fd accepts
  if l.returned then
    ⟨l.trace ++ [.addEvent sock_listen_fd .test_accept], true, l.rest⟩
  else l

/-- Model B, `accept_cb`: one `accept`; a negative result is reported and the
callback returns, otherwise the descriptor is made non-blocking, the context
is created with the two events `event_new` and `evtimer_new` returned
(`read_ev`, `timer_ev`) and the read event is added. -/
def accept_cb (listener : Int) (fd : SysRet) (read_ev timer_ev : Option Nat) :
    List LEv × Option ConnCtx :=
  if fd.ret < 0 then
    ([.accept listener fd, .perror], none)
  else
    ([.accept listener fd, .make_socket_nonblocking fd.ret, .event_add read_ev],
      some ⟨fd.ret, read_ev, timer_ev⟩)

/-- Model B, `count` readiness notifications of the persistent listener
event: `accept_cb` runs once per notification, each run taking the next
`accept` result.  The events created for the k-th connection are numbered
`2 * k` and `2 * k + 1`. -/
def accept_cb_times (listener : Int) : Nat → Nat → List SysRet → List LEv × List ConnCtx × List SysRet
  | 0, _, rs => ([], [], rs)
  | _ + 1, _, [] => ([], [], [])
  | count + 1, k, fd :: rs =>
    let r := accept_cb listener fd (some (2 * k)) (some (2 * k + 1))
    let t := accept_cb_times listener count (k + 1) rs
    (r.1 ++ t.1, (match r.2 with | some c => [c] | none => []) ++ t.2.1, t.2.2)

/-- Descriptors Model A handed to a connection handler. -/
def handedOffA : List LEv → List Int
  | [] => []
  | .addEvent fd (.conn_handler _) :: t => fd :: handedOffA t
  | _ :: t => handedOffA t

/-- Number of `accept` calls in a listener trace. -/
def acceptCalls : List LEv → Nat
  | [] => 0
  | .accept _ _ :: t => acceptCalls t + 1
  | _ :: t => acceptCalls t

/-- Descriptors an `accept` script yields: its non-negative results. -/
def descriptors (rs : List SysRet) : List Int :=
  (rs.filter (fun r => 0 ≤ r.ret)).map (fun r => r.ret)

/-! ## Classes of results -/

/-- A failed call whose error is an interruption or a would-block. -/
def SysRet.transient (r : SysRet) : Prop :=
  r.ret < 0 ∧ (r.errno = EINTR ∨ r.errno = EAGAIN ∨ r.errno = EWOULDBLOCK)

instance (r : SysRet) : Decidable r.transient := by
  unfold SysRet.transient; infer_instance

/-- A `send` never reports more bytes than it was asked to send. -/
def Ev.valid : Ev → Prop
  | .send _ _ _ len r => r.ret ≤ len
  | _ => True

instance (e : Ev) : Decidable e.valid := by
  cases e <;> unfold Ev.valid <;> infer_instance

/-- Bytes a `send` event reports as accepted. -/
def Ev.gain : Ev → Nat
  | .send _ _ _ _ r => r.ret.toNat
  | _ => 0

/-- Bytes accepted over a trace. -/
def gained : List Ev → Nat
  | [] => 0
  | e :: t => e.gain + gained t

/-- Every `send` of buffer `b` in the trace starts at the number of bytes of
`b` accepted so far (`off` at the start of the trace) and asks for all the
bytes of `b` that remain. -/
def resumes (b : Buf) : Nat → List Ev → Prop
  | _, [] => True
  | off, .send _ b' o len r :: t =>
    if b' = b then o = off ∧ o + len = bufLen b ∧ resumes b (off + r.ret.toNat) t
    else resumes b off t
  | off, _ :: t => resumes b off t

/-- Decision procedure for `resumes`, along the trace. -/
def resumesDecidable (b : Buf) : (off : Nat) → (t : List Ev) → Decidable (resumes b off t)
  | _, [] => isTrue trivial
  | off, .send _ b' o len r :: t =>
    if h : b' = b then
      have := resumesDecidable b (off + r.ret.toNat) t
      decidable_of_iff (o = off ∧ o + len = bufLen b ∧ resumes b (off + r.ret.toNat) t)
        (by simp [resumes, h])
    else
      have := resumesDecidable b off t
      decidable_of_iff (resumes b off t) (by simp [resumes, h])
  | off, .recv _ _ _ :: t => resumesDecidable b off t
  | off, .usleep _ :: t => resumesDecidable b off t
  | off, .close _ :: t => resumesDecidable b off t
  | off, .event_del _ :: t => resumesDecidable b off t
  | off, .evtimer_add _ _ _ :: t => resumesDecidable b off t
  | off, .event_free _ :: t => resumesDecidable b off t
  | off, .free_ctx :: t => resumesDecidable b off t

instance (b : Buf) (off : Nat) (t : List Ev) : Decidable (resumes b off t) :=
  resumesDecidable b off t

/-- Bytes the results of a script accept in total. -/
def offered : List SysRet → Nat
  | [] => 0
  | r :: rs => r.ret.toNat + offered rs

/-! ## The lifecycle of the specification -/

/-- Stages of a connection.  `Reading` is split by what is known of the
receive: not issued yet, returned a positive count, or returned zero or an
error. -/
inductive Stage
  | Reading
  | ReadData
  | ReadEnd
  | Delaying
  | Writing
  | Closed
deriving DecidableEq

/-- The stage after an operation on the connection of descriptor `fd`, or
`none` when the lifecycle does not allow the operation in the stage:
the receive is the one operation of `Reading`; after a positive receive the
read interest may be removed and the 20000 microsecond delay is requested
(`usleep(20000)` or a timer of 0 s 20000 us); sends follow the delay; `close`
follows a non-positive receive or a send; only the release of the events and
of the context follows `close`. -/
def Stage.next (fd : Int) : Stage → Ev → Option Stage
  | .Reading, .recv fd' _ r =>
    if fd' = fd then (if 0 < r.ret then some .ReadData else some .ReadEnd) else none
  | .ReadData, .event_del _ => some .ReadData
  | .ReadData, .usleep us => if us = 20000 then some .Delaying else none
  | .ReadData, .evtimer_add _ s us => if s = 0 ∧ us = 20000 then some .Delaying else none
  | .ReadEnd, .close fd' => if fd' = fd then some .Closed else none
  | .Delaying, .send fd' _ _ _ _ => if fd' = fd then some .Writing else none
  | .Writing, .send fd' _ _ _ _ => if fd' = fd then some .Writing else none
  | .Writing, .close fd' => if fd' = fd then some .Closed else none
  | .Closed, .event_free _ => some .Closed
  | .Closed, .free_ctx => some .Closed
  | _, _ => none

/-- The stage a trace leads to from stage `s`, `none` when some operation is
out of order. -/
def lifecycle (fd : Int) : Stage → List Ev → Option Stage
  | s, [] => some s
  | s, e :: t =>
    match s.next fd e with
    | some s' => lifecycle fd s' t
    | none => none

/-- Number of transient results of a script. -/
def transients (rs : List SysRet) : Nat := rs.countP (fun r => r.transient)

/-- Number of results of a script that are not transient. -/
def decisive (rs : List SysRet) : Nat := rs.countP (fun r => ¬ r.transient)

/-- Number of `send` calls of a trace. -/
def attempts (t : List Ev) : Nat := (sendRequests t).length

/-- The first `k` results of an unending sequence of results. -/
def firstResults (s : Nat → SysRet) (k : Nat) : List SysRet := (List.range k).map s

/-- Number of `recv` calls of a trace. -/
def recvCalls : List Ev → Nat
  | [] => 0
  | .recv _ _ _ :: t => recvCalls t + 1
  | _ :: t => recvCalls t

/-! # Theorems -/

/-! ## Basic facts -/

theorem hl_eq : hl = 84 := by decide

theorem strlen_body : strlen body = 13 := by decide

theorem header_length : header.length = 84 := by decide

theorem bufBytes_length (b : Buf) : (bufBytes b).length = bufLen b := by
  cases b <;> decide

theorem bufLen_lt (b : Buf) : bufLen b < SIZE_MOD := by
  cases b <;> decide

/-- C1: both adapters build the response from the same `snprintf` format and
the same body; it is the status line, the three headers, the blank line and
the body, the number in `Content-Length` is the byte length of the body (13),
and for every request payload a run whose sends are accepted in full puts
exactly these bytes on the wire. -/
theorem response_format (fd : Int) (ctx : ConnCtx) (n : SysRet) (payload : List Char)
    (hn : 0 < n.ret) (ht : ctx.timer_ev ≠ none) :
    header = "HTTP/1.1 200 OK\r\n".toList ++ "Content-Type: text/plain\r\n".toList ++
        "Content-Length: ".toList ++ fmt_zu (strlen body) ++ "\r\n".toList ++
        "Connection: close\r\n\r\n".toList ∧
      fmt_zu (strlen body) = "13".toList ∧
      parseDecimal (fmt_zu (strlen body)) = body.length ∧
      body = "Hello, World!".toList ∧ body.length = 13 ∧ hl = header.length ∧
      wire (conn_handler fd n payload [⟨84, 0⟩, ⟨13, 0⟩]).trace = header ++ body ∧
      wire (callback_chain ctx n payload [⟨84, 0⟩, ⟨13, 0⟩]).trace = header ++ body ∧
      sendRequests (conn_handler fd n payload [⟨84, 0⟩, ⟨13, 0⟩]).trace =
        [(.header, 0, header.length), (.body, 0, body.length)] ∧
      sendRequests (callback_chain ctx n payload [⟨84, 0⟩, ⟨13, 0⟩]).trace =
        [(.header, 0, header.length), (.body, 0, body.length)] := by
  have hn' : ¬ n.ret ≤ 0 := not_le.mpr hn
  obtain ⟨cfd, rev, tev⟩ := ctx
  cases tev with
  | none => exact absurd rfl ht
  | some t =>
    refine ⟨by decide, by decide, by decide, rfl, by decide, by decide, ?_, ?_, ?_, ?_⟩
    · simp [conn_handler, hn', sendLoopA, hl_eq, strlen_body, Loop.cons, SIZE_MOD, wire,
        Ev.delivered, bufBytes]
      decide
    · cases rev <;>
      simp [callback_chain, http_read_cb, delayed_send_cb, cleanup, hn', sendLoopB, hl_eq,
        strlen_body, Loop.cons, SIZE_MOD, wire, Ev.delivered, bufBytes] <;> decide
    · simp [conn_handler, hn', sendLoopA, hl_eq, strlen_body, Loop.cons, SIZE_MOD,
        sendRequests, header_length]
      decide
    · cases rev <;>
      simp [callback_chain, http_read_cb, delayed_send_cb, cleanup, hn', sendLoopB, hl_eq,
        strlen_body, Loop.cons, SIZE_MOD, sendRequests, header_length] <;> decide

/-- The response format on the request `ping`. -/
theorem response_format_witness :
    (0 : Int) < 4 ∧ (some 1 : Option Nat) ≠ none ∧
      wire (conn_handler 5 ⟨4, 0⟩ "ping".toList [⟨84, 0⟩, ⟨13, 0⟩]).trace = header ++ body ∧
      wire (callback_chain ⟨5, some 0, some 1⟩ ⟨4, 0⟩ "ping".toList [⟨84, 0⟩, ⟨13, 0⟩]).trace =
        header ++ body :=
  have h := response_format 5 ⟨5, some 0, some 1⟩ ⟨4, 0⟩ "ping".toList (by decide) (by decide)
  ⟨by decide, by decide, h.2.2.2.2.2.2.1, h.2.2.2.2.2.2.2.1⟩

/-! ## One step of the send loops -/

theorem sendLoopA_stop (fd : Int) (b : Buf) (len off : Nat) (rs : List SysRet)
    (h : ¬ off < len) : sendLoopA fd b len off rs = ⟨[], .done, rs⟩ := by
  cases rs <;> simp [sendLoopA, h]

theorem sendLoopA_pos (fd : Int) (b : Buf) (len off : Nat) (m : SysRet) (rs : List SysRet)
    (h : off < len) (hm : 0 < m.ret) :
    sendLoopA fd b len off (m :: rs) =
      (sendLoopA fd b len ((off + m.ret.toNat) % SIZE_MOD) rs).cons
        (.send fd b off (len - off) m) := by
  simp [sendLoopA, h, hm]

theorem sendLoopA_retry (fd : Int) (b : Buf) (len off : Nat) (m : SysRet) (rs : List SysRet)
    (h : off < len) (hm : ¬ 0 < m.ret) (ht : m.ret < 0 ∧ (m.errno = EINTR ∨ m.errno = EAGAIN)) :
    sendLoopA fd b len off (m :: rs) =
      (sendLoopA fd b len off rs).cons (.send fd b off (len - off) m) := by
  simp [sendLoopA, h, hm, ht]

theorem sendLoopA_fail (fd : Int) (b : Buf) (len off : Nat) (m : SysRet) (rs : List SysRet)
    (h : off < len) (hm : ¬ 0 < m.ret)
    (ht : ¬ (m.ret < 0 ∧ (m.errno = EINTR ∨ m.errno = EAGAIN))) :
    sendLoopA fd b len off (m :: rs) =
      ⟨[.send fd b off (len - off) m, .close fd], .failed, rs⟩ := by
  simp only [sendLoopA, if_pos h, if_neg hm, if_neg ht]

theorem sendLoopB_stop (fd : Int) (b : Buf) (p : Nat) (rs : List SysRet) :
    sendLoopB fd b p 0 rs = ⟨[], .done, rs⟩ := by
  cases rs <;> simp [sendLoopB]

theorem sendLoopB_pos (fd : Int) (b : Buf) (p left : Nat) (n : SysRet) (rs : List SysRet)
    (h : left ≠ 0) (hn : 0 < n.ret) :
    sendLoopB fd b p left (n :: rs) =
      (sendLoopB fd b (p + n.ret.toNat)
        ((left + SIZE_MOD - n.ret.toNat % SIZE_MOD) % SIZE_MOD) rs).cons
        (.send fd b p left n) := by
  simp [sendLoopB, h, hn]

theorem sendLoopB_retry (fd : Int) (b : Buf) (p left : Nat) (n : SysRet) (rs : List SysRet)
    (h : left ≠ 0) (hn : ¬ 0 < n.ret) (ht : n.transient) :
    sendLoopB fd b p left (n :: rs) =
      (sendLoopB fd b p left rs).cons (.send fd b p left n) := by
  obtain ⟨h1, h2⟩ := ht
  by_cases hi : n.errno = EINTR
  · simp [sendLoopB, h, hn, h1, hi]
  · have h3 : n.errno = EAGAIN ∨ n.errno = EWOULDBLOCK := by tauto
    simp [sendLoopB, h, hn, h1, hi, h3]

theorem sendLoopB_fail (fd : Int) (b : Buf) (p left : Nat) (n : SysRet) (rs : List SysRet)
    (h : left ≠ 0) (hn : ¬ 0 < n.ret) (ht : ¬ n.transient) :
    sendLoopB fd b p left (n :: rs) = ⟨[.send fd b p left n], .failed, rs⟩ := by
  have h1 : ¬ (n.ret < 0 ∧ n.errno = EINTR) := fun hh => ht ⟨hh.1, Or.inl hh.2⟩
  have h2 : ¬ (n.ret < 0 ∧ (n.errno = EAGAIN ∨ n.errno = EWOULDBLOCK)) :=
    fun hh => ht ⟨hh.1, Or.inr hh.2⟩
  simp only [sendLoopB, if_pos h, if_neg hn, if_neg h1, if_neg h2]

/-- In Model A the retry test of the send loops is the transient class
(`EWOULDBLOCK` is `EAGAIN`). -/
theorem transient_iff (m : SysRet) :
    m.transient ↔ m.ret < 0 ∧ (m.errno = EINTR ∨ m.errno = EAGAIN) := by
  unfold SysRet.transient EWOULDBLOCK EAGAIN
  tauto

theorem wire_append (s t : List Ev) : wire (s ++ t) = wire s ++ wire t := by
  induction s with
  | nil => rfl
  | cons e s ih => simp [wire, ih]

theorem gained_append (s t : List Ev) : gained (s ++ t) = gained s + gained t := by
  induction s with
  | nil => simp [gained]
  | cons e s ih => simp [gained, ih, Nat.add_assoc]

theorem sendRequests_append (s t : List Ev) :
    sendRequests (s ++ t) = sendRequests s ++ sendRequests t := by
  induction s with
  | nil => rfl
  | cons e s ih => cases e <;> simp [sendRequests, ih]

/-- Invariant of the Model A send loop on a script of transient and
successful results, every success within the requested length. -/
theorem sendLoopA_progress (fd : Int) (b : Buf) (script : List SysRet) :
    ∀ off, off ≤ bufLen b →
      (∀ r ∈ script, r.transient ∨ 0 < r.ret) →
      (∀ e ∈ (sendLoopA fd b (bufLen b) off script).trace, e.valid) →
      (sendLoopA fd b (bufLen b) off script).exit ≠ .failed ∧
      ((sendLoopA fd b (bufLen b) off script).exit = .pending →
        off + gained (sendLoopA fd b (bufLen b) off script).trace < bufLen b) ∧
      ((sendLoopA fd b (bufLen b) off script).exit = .done →
        off + gained (sendLoopA fd b (bufLen b) off script).trace = bufLen b) ∧
      wire (sendLoopA fd b (bufLen b) off script).trace =
        ((bufBytes b).drop off).take (gained (sendLoopA fd b (bufLen b) off script).trace) ∧
      offered script = gained (sendLoopA fd b (bufLen b) off script).trace +
        offered (sendLoopA fd b (bufLen b) off script).rest ∧
      ((sendLoopA fd b (bufLen b) off script).exit = .pending →
        (sendLoopA fd b (bufLen b) off script).rest = []) ∧
      (∀ r ∈ (sendLoopA fd b (bufLen b) off script).rest, r ∈ script) ∧
      resumes b off (sendLoopA fd b (bufLen b) off script).trace := by
  induction script with
  | nil =>
    intro off hoff _ _
    by_cases hlt : off < bufLen b
    · simp [sendLoopA, hlt, gained, wire, offered, resumes]
    · have : off = bufLen b := by omega
      simp [sendLoopA, hlt, gained, wire, offered, resumes, this]
  | cons m rs ih =>
    intro off hoff hs hv
    by_cases hlt : off < bufLen b
    · by_cases hm : 0 < m.ret
      · rw [sendLoopA_pos fd b _ off m rs hlt hm] at hv ⊢
        have hhead : m.ret ≤ ((bufLen b - off : Nat) : Int) := by
          have := hv (.send fd b off (bufLen b - off) m) (by simp [Loop.cons])
          simpa [Ev.valid] using this
        have hk : m.ret.toNat ≤ bufLen b - off := by omega
        have hk0 : 0 < m.ret.toNat := by omega
        have hB := bufLen_lt b
        have hmod : (off + m.ret.toNat) % SIZE_MOD = off + m.ret.toNat :=
          Nat.mod_eq_of_lt (by omega)
        rw [hmod] at hv ⊢
        have hv' : ∀ e ∈ (sendLoopA fd b (bufLen b) (off + m.ret.toNat) rs).trace, e.valid :=
          fun e he => hv e (by simp [Loop.cons, he])
        obtain ⟨i1, i2, i3, i4, i5, i6, i7, i8⟩ :=
          ih (off + m.ret.toNat) (by omega) (fun r hr => hs r (List.mem_cons_of_mem _ hr)) hv'
        refine ⟨by simpa [Loop.cons] using i1, ?_, ?_, ?_, ?_, by simpa [Loop.cons] using i6,
          ?_, ?_⟩
        · intro h
          have := i2 (by simpa [Loop.cons] using h)
          simp only [Loop.cons, gained, Ev.gain]
          omega
        · intro h
          have := i3 (by simpa [Loop.cons] using h)
          simp only [Loop.cons, gained, Ev.gain]
          omega
        · simp only [Loop.cons, wire, gained, Ev.gain, Ev.delivered, if_pos hm, i4]
          rw [List.take_add, List.drop_drop]
        · simp only [Loop.cons, gained, Ev.gain, offered]
          omega
        · intro r hr
          exact List.mem_cons_of_mem _ (i7 r (by simpa [Loop.cons] using hr))
        · simp only [Loop.cons, resumes, if_true]
          exact ⟨trivial, by omega, i8⟩
      · have ht : m.transient := by
          rcases hs m (List.mem_cons_self _ _) with h | h
          · exact h
          · exact absurd h hm
        rw [sendLoopA_retry fd b _ off m rs hlt hm ((transient_iff m).mp ht)] at hv ⊢
        have hv' : ∀ e ∈ (sendLoopA fd b (bufLen b) off rs).trace, e.valid :=
          fun e he => hv e (by simp [Loop.cons, he])
        obtain ⟨i1, i2, i3, i4, i5, i6, i7, i8⟩ :=
          ih off hoff (fun r hr => hs r (List.mem_cons_of_mem _ hr)) hv'
        have hz : m.ret.toNat = 0 := by have := ht.1; omega
        refine ⟨by simpa [Loop.cons] using i1, ?_, ?_, ?_, ?_, by simpa [Loop.cons] using i6,
          ?_, ?_⟩
        · intro h
          have := i2 (by simpa [Loop.cons] using h)
          simp only [Loop.cons, gained, Ev.gain, hz]
          omega
        · intro h
          have := i3 (by simpa [Loop.cons] using h)
          simp only [Loop.cons, gained, Ev.gain, hz]
          omega
        · simp only [Loop.cons, wire, gained, Ev.gain, Ev.delivered, if_neg hm, i4, hz]
          simp
        · simp only [Loop.cons, gained, Ev.gain, offered, hz]
          omega
        · intro r hr
          exact List.mem_cons_of_mem _ (i7 r (by simpa [Loop.cons] using hr))
        · simp only [Loop.cons, resumes, if_true, hz, Nat.add_zero]
          exact ⟨trivial, by omega, i8⟩
    · have he : off = bufLen b := by omega
      rw [sendLoopA_stop fd b _ off _ hlt]
      simp [gained, wire, resumes, he]

/-- On a script of transient and successful results, every success within
the requested length, the Model B loop with `p + left` the buffer length does
what the Model A loop does from offset `p`. -/
theorem sendLoopB_eq_sendLoopA (fd : Int) (b : Buf) (script : List SysRet) :
    ∀ p left, p + left = bufLen b →
      (∀ r ∈ script, r.transient ∨ 0 < r.ret) →
      (∀ e ∈ (sendLoopB fd b p left script).trace, e.valid) →
      sendLoopB fd b p left script = sendLoopA fd b (bufLen b) p script := by
  induction script with
  | nil =>
    intro p left hpl _ _
    by_cases h0 : left = 0
    · have : ¬ p < bufLen b := by omega
      simp [sendLoopA, sendLoopB, h0, this]
    · have : p < bufLen b := by omega
      simp [sendLoopA, sendLoopB, h0, this]
  | cons m rs ih =>
    intro p left hpl hs hv
    by_cases h0 : left = 0
    · have : ¬ p < bufLen b := by omega
      rw [sendLoopA_stop fd b _ p _ this, h0, sendLoopB_stop]
    · have hlt : p < bufLen b := by omega
      have hlen : bufLen b - p = left := by omega
      by_cases hm : 0 < m.ret
      · rw [sendLoopB_pos fd b p left m rs h0 hm] at hv ⊢
        have hhead : m.ret ≤ (left : Int) := by
          have := hv (.send fd b p left m) (by simp [Loop.cons])
          simpa [Ev.valid] using this
        have hB := bufLen_lt b
        have hk : m.ret.toNat ≤ left := by omega
        have h1 : m.ret.toNat % SIZE_MOD = m.ret.toNat := Nat.mod_eq_of_lt (by omega)
        have h2 : (left + SIZE_MOD - m.ret.toNat) % SIZE_MOD = left - m.ret.toNat := by
          have : left + SIZE_MOD - m.ret.toNat = (left - m.ret.toNat) + SIZE_MOD := by omega
          rw [this, Nat.add_mod_right]
          exact Nat.mod_eq_of_lt (by omega)
        have h3 : (p + m.ret.toNat) % SIZE_MOD = p + m.ret.toNat :=
          Nat.mod_eq_of_lt (by omega)
        rw [h1, h2] at hv ⊢
        rw [sendLoopA_pos fd b _ p m rs hlt hm, h3, hlen]
        rw [ih (p + m.ret.toNat) (left - m.ret.toNat) (by omega)
          (fun r hr => hs r (List.mem_cons_of_mem _ hr))
          (fun e he => hv e (by simp [Loop.cons, he]))]
      · have ht : m.transient := by
          rcases hs m (List.mem_cons_self _ _) with h | h
          · exact h
          · exact absurd h hm
        rw [sendLoopB_retry fd b p left m rs h0 hm ht] at hv ⊢
        rw [sendLoopA_retry fd b _ p m rs hlt hm ((transient_iff m).mp ht), hlen]
        rw [ih p left hpl (fun r hr => hs r (List.mem_cons_of_mem _ hr))
          (fun e he => hv e (by simp [Loop.cons, he]))]

/-! ## Shape of the loop traces -/

/-- The Model A loop issues sends on its descriptor and buffer; a `close` of
the descriptor ends the trace exactly when the loop failed. -/
theorem sendLoopA_shape (fd : Int) (b : Buf) (len : Nat) (script : List SysRet) :
    ∀ off, ∃ sends : List Ev,
      (∀ e ∈ sends, ∃ o l r, e = .send fd b o l r) ∧
      (sendLoopA fd b len off script).trace =
        sends ++ (if (sendLoopA fd b len off script).exit = .failed then [.close fd] else []) := by
  induction script with
  | nil =>
    intro off
    refine ⟨[], by simp, ?_⟩
    by_cases h : off < len <;> simp [sendLoopA, h]
  | cons m rs ih =>
    intro off
    by_cases hlt : off < len
    · by_cases hm : 0 < m.ret
      · obtain ⟨s, hs1, hs2⟩ := ih ((off + m.ret.toNat) % SIZE_MOD)
        refine ⟨.send fd b off (len - off) m :: s, ?_, ?_⟩
        · intro e he
          rcases List.mem_cons.mp he with h | h
          · exact ⟨_, _, _, h⟩
          · exact hs1 e h
        · rw [sendLoopA_pos fd b len off m rs hlt hm]
          simp only [Loop.cons, List.cons_append]
          rw [hs2]
      · by_cases ht : m.ret < 0 ∧ (m.errno = EINTR ∨ m.errno = EAGAIN)
        · obtain ⟨s, hs1, hs2⟩ := ih off
          refine ⟨.send fd b off (len - off) m :: s, ?_, ?_⟩
          · intro e he
            rcases List.mem_cons.mp he with h | h
            · exact ⟨_, _, _, h⟩
            · exact hs1 e h
          · rw [sendLoopA_retry fd b len off m rs hlt hm ht]
            simp only [Loop.cons, List.cons_append]
            rw [hs2]
        · refine ⟨[.send fd b off (len - off) m], ?_, ?_⟩
          · intro e he
            exact ⟨_, _, _, List.mem_singleton.mp he⟩
          · rw [sendLoopA_fail fd b len off m rs hlt hm ht]
            simp
    · refine ⟨[], by simp, ?_⟩
      rw [sendLoopA_stop fd b len off _ hlt]
      simp

/-- The Model B loop issues nothing but sends on its descriptor and buffer. -/
theorem sendLoopB_shape (fd : Int) (b : Buf) (script : List SysRet) :
    ∀ p left, ∀ e ∈ (sendLoopB fd b p left script).trace, ∃ o l r, e = .send fd b o l r := by
  induction script with
  | nil =>
    intro p left e he
    by_cases h : left = 0 <;> simp [sendLoopB, h] at he
  | cons m rs ih =>
    intro p left e he
    by_cases h0 : left = 0
    · rw [h0, sendLoopB_stop] at he
      simp at he
    · by_cases hm : 0 < m.ret
      · rw [sendLoopB_pos fd b p left m rs h0 hm] at he
        rcases List.mem_cons.mp he with h | h
        · exact ⟨_, _, _, h⟩
        · exact ih _ _ e h
      · by_cases ht : m.transient
        · rw [sendLoopB_retry fd b p left m rs h0 hm ht] at he
          rcases List.mem_cons.mp he with h | h
          · exact ⟨_, _, _, h⟩
          · exact ih _ _ e h
        · rw [sendLoopB_fail fd b p left m rs h0 hm ht] at he
          exact ⟨_, _, _, List.mem_singleton.mp he⟩

/-! ## Resuming from the unsent offset -/

theorem resumes_skip (b : Buf) (s t : List Ev) (off : Nat)
    (hs : ∀ e ∈ s, ∀ fd o l r, e ≠ .send fd b o l r) :
    resumes b off (s ++ t) ↔ resumes b off t := by
  induction s with
  | nil => simp
  | cons e s ih =>
    have ih' := ih (fun e he => hs e (List.mem_cons_of_mem _ he))
    cases e with
    | send fd' b' o len r =>
      have hb : ¬ b' = b := by
        intro hb
        exact hs _ (List.mem_cons_self _ _) fd' o len r (by rw [hb])
      simp only [List.cons_append, resumes, if_neg hb]
      exact ih'
    | _ =>
      simp only [List.cons_append, resumes]
      exact ih'

theorem resumes_tail (b : Buf) (s t : List Ev)
    (ht : ∀ e ∈ t, ∀ fd o l r, e ≠ .send fd b o l r) :
    ∀ off, resumes b off s → resumes b off (s ++ t) := by
  induction s with
  | nil =>
    intro off _
    have := (resumes_skip b t [] off ht).mpr (by simp [resumes])
    simpa using this
  | cons e s ih =>
    intro off h
    cases e with
    | send fd' b' o len r =>
      by_cases hb : b' = b
      · simp only [List.cons_append, resumes, if_pos hb] at h ⊢
        exact ⟨h.1, h.2.1, ih _ h.2.2⟩
      · simp only [List.cons_append, resumes, if_neg hb] at h ⊢
        exact ih _ h
    | _ =>
      simp only [List.cons_append, resumes] at h ⊢
      exact ih _ h

/-! ## The handlers, unfolded -/

theorem conn_handler_pos (fd : Int) (n : SysRet) (buf : List Char) (script : List SysRet)
    (hn : 0 < n.ret) :
    conn_handler fd n buf script =
      if (sendLoopA fd .header hl 0 script).exit = .done then
        ⟨[.recv fd 1024 n, .usleep 20000] ++ (sendLoopA fd .header hl 0 script).trace ++
            (sendLoopA fd .body (strlen body) 0 (sendLoopA fd .header hl 0 script).rest).trace ++
            (if (sendLoopA fd .body (strlen body) 0 (sendLoopA fd .header hl 0 script).rest).exit
                = .done then [.close fd] else []),
          match (sendLoopA fd .body (strlen body) 0 (sendLoopA fd .header hl 0 script).rest).exit with
          | .done => some .sendDone
          | .failed => some .sendError
          | .pending => none⟩
      else
        ⟨[.recv fd 1024 n, .usleep 20000] ++ (sendLoopA fd .header hl 0 script).trace,
          if (sendLoopA fd .header hl 0 script).exit = .failed then some .sendError else none⟩ := by
  have hn' : ¬ n.ret ≤ 0 := not_le.mpr hn
  unfold conn_handler
  rw [if_neg hn']
  cases hE : (sendLoopA fd .header hl 0 script).exit with
  | done =>
    cases hB : (sendLoopA fd .body (strlen body) 0 (sendLoopA fd .header hl 0 script).rest).exit <;>
      simp [hE, hB]
  | failed => simp [hE]
  | pending => simp [hE]

theorem delayed_send_cb_eq (ctx : ConnCtx) (script : List SysRet) :
    delayed_send_cb ctx script =
      if (sendLoopB ctx.fd .header 0 hl script).exit = .pending then
        ⟨(sendLoopB ctx.fd .header 0 hl script).trace, none⟩
      else if (sendLoopB ctx.fd .body 0 (strlen body)
          (sendLoopB ctx.fd .header 0 hl script).rest).exit = .pending then
        ⟨(sendLoopB ctx.fd .header 0 hl script).trace ++
          (sendLoopB ctx.fd .body 0 (strlen body) (sendLoopB ctx.fd .header 0 hl script).rest).trace,
          none⟩
      else
        ⟨(sendLoopB ctx.fd .header 0 hl script).trace ++
          (sendLoopB ctx.fd .body 0 (strlen body) (sendLoopB ctx.fd .header 0 hl script).rest).trace
          ++ cleanup ctx.fd ctx,
          some (if (sendLoopB ctx.fd .header 0 hl script).exit = .failed ∨
              (sendLoopB ctx.fd .body 0 (strlen body)
                (sendLoopB ctx.fd .header 0 hl script).rest).exit = .failed
            then .sendError else .sendDone)⟩ := by
  unfold delayed_send_cb
  cases hE : (sendLoopB ctx.fd .header 0 hl script).exit <;>
    cases hB : (sendLoopB ctx.fd .body 0 (strlen body)
      (sendLoopB ctx.fd .header 0 hl script).rest).exit <;>
    simp [hE, hB]

theorem callback_chain_pos (ctx : ConnCtx) (t : Nat) (n : SysRet) (buf : List Char)
    (script : List SysRet) (hn : 0 < n.ret) (ht : ctx.timer_ev = some t) :
    callback_chain ctx n buf script =
      ⟨.recv ctx.fd 1024 n ::
          ((match ctx.read_ev with | some e => [.event_del e] | none => []) ++
            [.evtimer_add (some t) 0 20000]) ++ (delayed_send_cb ctx script).trace,
        (delayed_send_cb ctx script).exit⟩ := by
  have hn' : ¬ n.ret ≤ 0 := not_le.mpr hn
  simp [callback_chain, http_read_cb, hn', ht]

theorem callback_chain_nonpos (ctx : ConnCtx) (n : SysRet) (buf : List Char)
    (script : List SysRet) (hn : n.ret ≤ 0) :
    callback_chain ctx n buf script =
      ⟨.recv ctx.fd 1024 n :: cleanup ctx.fd ctx, some .peerClosed⟩ := by
  simp [callback_chain, http_read_cb, hn]

/-- The two Model A loops, one after the other, on a script of transient and
successful results that offers at least the whole response. -/
theorem sendLoopA_both (fd : Int) (script : List SysRet)
    (hs : ∀ r ∈ script, r.transient ∨ 0 < r.ret)
    (hp : hl + strlen body ≤ offered script)
    (hvH : ∀ e ∈ (sendLoopA fd .header hl 0 script).trace, e.valid)
    (hvB : (sendLoopA fd .header hl 0 script).exit = .done →
      ∀ e ∈ (sendLoopA fd .body (strlen body) 0
        (sendLoopA fd .header hl 0 script).rest).trace, e.valid) :
    (sendLoopA fd .header hl 0 script).exit = .done ∧
      (sendLoopA fd .body (strlen body) 0 (sendLoopA fd .header hl 0 script).rest).exit = .done ∧
      wire (sendLoopA fd .header hl 0 script).trace = header ∧
      wire (sendLoopA fd .body (strlen body) 0
        (sendLoopA fd .header hl 0 script).rest).trace = body ∧
      resumes .header 0 (sendLoopA fd .header hl 0 script).trace ∧
      resumes .body 0 (sendLoopA fd .body (strlen body) 0
        (sendLoopA fd .header hl 0 script).rest).trace := by
  obtain ⟨a1, a2, a3, a4, a5, a6, a7, a8⟩ :=
    sendLoopA_progress fd .header script 0 (Nat.zero_le _) hs hvH
  have hH : bufLen .header = 84 := by decide
  have hBd : bufLen .body = 13 := by decide
  have hlv : hl = 84 := hl_eq
  have hsb : strlen body = 13 := strlen_body
  have e1 : sendLoopA fd .header (bufLen .header) 0 script = sendLoopA fd .header hl 0 script := rfl
  rw [e1] at a1 a2 a3 a4 a5 a6 a7 a8
  have hdone : (sendLoopA fd .header hl 0 script).exit = .done := by
    cases hE : (sendLoopA fd .header hl 0 script).exit with
    | done => rfl
    | failed => exact absurd hE a1
    | pending =>
      have h1 := a2 hE
      have h2 := a6 hE
      rw [h2] at a5
      simp only [offered] at a5
      omega
  have hg := a3 hdone
  obtain ⟨b1, b2, b3, b4, b5, b6, _, b8⟩ :=
    sendLoopA_progress fd .body (sendLoopA fd .header hl 0 script).rest 0 (Nat.zero_le _)
      (fun r hr => hs r (a7 r hr)) (hvB hdone)
  have e2 : sendLoopA fd .body (bufLen .body) 0 (sendLoopA fd .header hl 0 script).rest =
      sendLoopA fd .body (strlen body) 0 (sendLoopA fd .header hl 0 script).rest := rfl
  rw [e2] at b1 b2 b3 b4 b5 b6 b8
  have hdoneB : (sendLoopA fd .body (strlen body) 0
      (sendLoopA fd .header hl 0 script).rest).exit = .done := by
    cases hE : (sendLoopA fd .body (strlen body) 0 (sendLoopA fd .header hl 0 script).rest).exit with
    | done => rfl
    | failed => exact absurd hE b1
    | pending =>
      have h1 := b2 hE
      have h2 := b6 hE
      rw [h2] at b5
      simp only [offered] at b5
      omega
  have hgB := b3 hdoneB
  refine ⟨hdone, hdoneB, ?_, ?_, a8, b8⟩
  · rw [a4]
    have : gained (sendLoopA fd .header hl 0 script).trace = header.length := by
      rw [header_length]; omega
    rw [this]
    simp [bufBytes]
  · rw [b4]
    have : gained (sendLoopA fd .body (strlen body) 0
        (sendLoopA fd .header hl 0 script).rest).trace = body.length := by
      have : body.length = 13 := by decide
      omega
    rw [this]
    simp [bufBytes]

/-- The two Model B loops, one after the other, on such a script. -/
theorem sendLoopB_both (fd : Int) (script : List SysRet)
    (hs : ∀ r ∈ script, r.transient ∨ 0 < r.ret)
    (hp : hl + strlen body ≤ offered script)
    (hvH : ∀ e ∈ (sendLoopB fd .header 0 hl script).trace, e.valid)
    (hvB : (sendLoopB fd .header 0 hl script).exit ≠ .pending →
      ∀ e ∈ (sendLoopB fd .body 0 (strlen body)
        (sendLoopB fd .header 0 hl script).rest).trace, e.valid) :
    (sendLoopB fd .header 0 hl script).exit = .done ∧
      (sendLoopB fd .body 0 (strlen body) (sendLoopB fd .header 0 hl script).rest).exit = .done ∧
      wire (sendLoopB fd .header 0 hl script).trace = header ∧
      wire (sendLoopB fd .body 0 (strlen body)
        (sendLoopB fd .header 0 hl script).rest).trace = body ∧
      resumes .header 0 (sendLoopB fd .header 0 hl script).trace ∧
      resumes .body 0 (sendLoopB fd .body 0 (strlen body)
        (sendLoopB fd .header 0 hl script).rest).trace := by
  have eH : sendLoopB fd .header 0 hl script = sendLoopA fd .header hl 0 script :=
    sendLoopB_eq_sendLoopA fd .header script 0 hl (Nat.zero_add _) hs hvH
  rw [eH] at hvH hvB ⊢
  obtain ⟨a1, _, _, _, _, _, a7, _⟩ :=
    sendLoopA_progress fd .header script 0 (Nat.zero_le _) hs hvH
  have e1 : sendLoopA fd .header (bufLen .header) 0 script = sendLoopA fd .header hl 0 script := rfl
  rw [e1] at a1 a7
  have hnp : (sendLoopA fd .header hl 0 script).exit = .done →
      (sendLoopA fd .header hl 0 script).exit ≠ .pending := by
    intro h; rw [h]; decide
  by_cases hd : (sendLoopA fd .header hl 0 script).exit = .done
  · have eB : sendLoopB fd .body 0 (strlen body) (sendLoopA fd .header hl 0 script).rest =
        sendLoopA fd .body (strlen body) 0 (sendLoopA fd .header hl 0 script).rest :=
      sendLoopB_eq_sendLoopA fd .body _ 0 (strlen body) (Nat.zero_add _)
        (fun r hr => hs r (a7 r hr)) (hvB (hnp hd))
    rw [eB] at hvB ⊢
    exact sendLoopA_both fd script hs hp hvH (fun h => hvB (hnp h))
  · exact absurd (sendLoopA_both fd script hs hp hvH (fun h => absurd h hd)).1 hd

theorem cleanup_not_send (fd : Int) (ctx : ConnCtx) :
    ∀ e ∈ cleanup fd ctx, ∀ fd' b o l r, e ≠ .send fd' b o l r := by
  intro e he fd' b o l r heq
  subst heq
  obtain ⟨cfd, rev, tev⟩ := ctx
  cases rev <;> cases tev <;> simp [cleanup] at he

theorem arm_not_send (fd : Int) (ctx : ConnCtx) (n : SysRet) (t : Option Nat) :
    ∀ e ∈ Ev.recv fd 1024 n ::
        ((match ctx.read_ev with | some e => [Ev.event_del e] | none => []) ++
          [Ev.evtimer_add t 0 20000]),
      ∀ fd' b o l r, e ≠ .send fd' b o l r := by
  intro e he fd' b o l r heq
  subst heq
  obtain ⟨cfd, rev, tev⟩ := ctx
  cases rev <;> simp at he

theorem wire_not_send (s : List Ev) (hs : ∀ e ∈ s, ∀ fd b o l r, e ≠ .send fd b o l r) :
    wire s = [] := by
  induction s with
  | nil => rfl
  | cons e s ih =>
    have ih' := ih (fun e he => hs e (List.mem_cons_of_mem _ he))
    cases e with
    | send fd b o l r => exact absurd rfl (hs _ (List.mem_cons_self _ _) fd b o l r)
    | _ => simp [wire, Ev.delivered, ih']

/-- C2: partial writes.  For every script of send results in which each
result is transient (EINTR, would-block) or accepts at least one byte, every
send accepts no more than it was asked for, and the results offer at least
the whole response, both adapters finish by the completion path, every send
is issued from the offset of the first unsent byte of its buffer with the
remaining length, and the bytes accepted, in order, are exactly the header
followed by the body. -/
theorem short_write_complete (fd : Int) (ctx : ConnCtx) (n : SysRet) (buf : List Char)
    (script : List SysRet) (hn : 0 < n.ret) (ht : ctx.timer_ev ≠ none)
    (hs : ∀ r ∈ script, r.transient ∨ 0 < r.ret)
    (hp : hl + strlen body ≤ offered script) :
    ((∀ e ∈ (conn_handler fd n buf script).trace, e.valid) →
      (conn_handler fd n buf script).exit = some .sendDone ∧
      wire (conn_handler fd n buf script).trace = header ++ body ∧
      resumes .header 0 (conn_handler fd n buf script).trace ∧
      resumes .body 0 (conn_handler fd n buf script).trace) ∧
    ((∀ e ∈ (callback_chain ctx n buf script).trace, e.valid) →
      (callback_chain ctx n buf script).exit = some .sendDone ∧
      wire (callback_chain ctx n buf script).trace = header ++ body ∧
      resumes .header 0 (callback_chain ctx n buf script).trace ∧
      resumes .body 0 (callback_chain ctx n buf script).trace) := by
  have hn' : ¬ n.ret ≤ 0 := not_le.mpr hn
  have noSendPre : ∀ (b : Buf) (f : Int), ∀ e ∈ [Ev.recv f 1024 n, Ev.usleep 20000],
      ∀ fd' o l r, e ≠ .send fd' b o l r := by
    intro b f e he fd' o l r
    simp at he
    rcases he with h | h <;> simp [h]
  constructor
  · intro hv
    rw [conn_handler_pos fd n buf script hn] at hv ⊢
    have hvH : ∀ e ∈ (sendLoopA fd .header hl 0 script).trace, e.valid := by
      intro e he
      apply hv e
      split <;> simp [he]
    have hvB : (sendLoopA fd .header hl 0 script).exit = .done →
        ∀ e ∈ (sendLoopA fd .body (strlen body) 0
          (sendLoopA fd .header hl 0 script).rest).trace, e.valid := by
      intro hd e he
      apply hv e
      rw [if_pos hd]
      simp [he]
    obtain ⟨h1, h2, h3, h4, h5, h6⟩ := sendLoopA_both fd script hs hp hvH hvB
    rw [if_pos h1, h2]
    simp only [if_true]
    obtain ⟨sH, sH1, sH2⟩ := sendLoopA_shape fd .header hl script 0
    obtain ⟨sB, sB1, sB2⟩ := sendLoopA_shape fd .body (strlen body)
      (sendLoopA fd .header hl 0 script).rest 0
    rw [h1] at sH2
    rw [h2] at sB2
    simp only [List.append_nil, reduceCtorEq, if_false] at sH2 sB2
    refine ⟨trivial, ?_, ?_, ?_⟩
    · simp [wire_append, wire, Ev.delivered, h3, h4]
    · rw [List.append_assoc, List.append_assoc,
        resumes_skip .header _ _ 0 (noSendPre .header fd)]
      apply resumes_tail .header _ _ _ 0 h5
      intro e he fd' o l r
      rcases List.mem_append.mp he with h | h
      · rw [sB2] at h
        obtain ⟨o', l', r', hh⟩ := sB1 e h
        rw [hh]; simp
      · simp at h; simp [h]
    · rw [List.append_assoc, List.append_assoc,
        resumes_skip .body _ _ 0 (noSendPre .body fd)]
      rw [resumes_skip .body _ _ 0 (by
        intro e he fd' o l r
        rw [sH2] at he
        obtain ⟨o', l', r', hh⟩ := sH1 e he
        rw [hh]; simp)]
      apply resumes_tail .body _ _ _ 0 h6
      intro e he fd' o l r
      simp at he; simp [he]
  · intro hv
    cases htv : ctx.timer_ev with
    | none => exact absurd htv ht
    | some t =>
      rw [callback_chain_pos ctx t n buf script hn htv] at hv ⊢
      rw [delayed_send_cb_eq] at hv ⊢
      have hvH : ∀ e ∈ (sendLoopB ctx.fd .header 0 hl script).trace, e.valid := by
        intro e he
        apply hv e
        split_ifs <;> simp [he]
      have hvB : (sendLoopB ctx.fd .header 0 hl script).exit ≠ .pending →
          ∀ e ∈ (sendLoopB ctx.fd .body 0 (strlen body)
            (sendLoopB ctx.fd .header 0 hl script).rest).trace, e.valid := by
        intro hd e he
        apply hv e
        rw [if_neg hd]
        split_ifs <;> simp [he]
      obtain ⟨h1, h2, h3, h4, h5, h6⟩ := sendLoopB_both ctx.fd script hs hp hvH hvB
      rw [h1, h2]
      simp only [reduceCtorEq, if_false, or_self]
      have sH := sendLoopB_shape ctx.fd .header script 0 hl
      have sB := sendLoopB_shape ctx.fd .body (sendLoopB ctx.fd .header 0 hl script).rest 0
        (strlen body)
      have hpre := arm_not_send ctx.fd ctx n (some t)
      have hcl := cleanup_not_send ctx.fd ctx
      refine ⟨trivial, ?_, ?_, ?_⟩
      · rw [wire_append, wire_append, wire_append, wire_not_send _ hpre,
          wire_not_send _ hcl, h3, h4]
        simp
      · rw [List.append_assoc,
          resumes_skip .header _ _ 0 (fun e he fd' o l r => hpre e he fd' .header o l r)]
        apply resumes_tail .header _ _ _ 0 h5
        intro e he fd' o l r
        rcases List.mem_append.mp he with h | h
        · obtain ⟨o', l', r', hh⟩ := sB e h
          rw [hh]; simp
        · exact hcl e h fd' .header o l r
      · rw [List.append_assoc,
          resumes_skip .body _ _ 0 (fun e he fd' o l r => hpre e he fd' .body o l r)]
        rw [resumes_skip .body _ _ 0 (by
          intro e he fd' o l r
          obtain ⟨o', l', r', hh⟩ := sH e he
          rw [hh]; simp)]
        apply resumes_tail .body _ _ _ 0 h6
        intro e he fd' o l r
        exact hcl e he fd' .body o l r

/-- Short writes and transient errors on the request `ping`. -/
theorem short_write_complete_witness :
    (0 : Int) < 4 ∧
      wire (conn_handler 5 ⟨4, 0⟩ "ping".toList
        [⟨-1, 11⟩, ⟨50, 0⟩, ⟨-1, 4⟩, ⟨34, 0⟩, ⟨6, 0⟩, ⟨-1, 11⟩, ⟨7, 0⟩]).trace = header ++ body ∧
      wire (callback_chain ⟨5, some 0, some 1⟩ ⟨4, 0⟩ "ping".toList
        [⟨-1, 11⟩, ⟨50, 0⟩, ⟨-1, 4⟩, ⟨34, 0⟩, ⟨6, 0⟩, ⟨-1, 11⟩, ⟨7, 0⟩]).trace = header ++ body ∧
      sendRequests (callback_chain ⟨5, some 0, some 1⟩ ⟨4, 0⟩ "ping".toList
        [⟨-1, 11⟩, ⟨50, 0⟩, ⟨-1, 4⟩, ⟨34, 0⟩, ⟨6, 0⟩, ⟨-1, 11⟩, ⟨7, 0⟩]).trace =
        [(.header, 0, 84), (.header, 0, 84), (.header, 50, 34), (.header, 50, 34),
          (.body, 0, 13), (.body, 6, 7), (.body, 6, 7)] :=
  have h := short_write_complete 5 ⟨5, some 0, some 1⟩ ⟨4, 0⟩ "ping".toList
    [⟨-1, 11⟩, ⟨50, 0⟩, ⟨-1, 4⟩, ⟨34, 0⟩, ⟨6, 0⟩, ⟨-1, 11⟩, ⟨7, 0⟩]
    (by decide) (by decide) (by decide) (by decide)
  ⟨by decide, (h.1 (by decide)).2.1, (h.2 (by decide)).2.1, by decide⟩

/-! ## The listeners -/

theorem handedOffA_append (s t : List LEv) : handedOffA (s ++ t) = handedOffA s ++ handedOffA t := by
  induction s with
  | nil => rfl
  | cons e s ih =>
    cases e with
    | addEvent fd cb => cases cb <;> simp [handedOffA, ih]
    | _ => simp [handedOffA, ih]

theorem acceptCalls_append (s t : List LEv) :
    acceptCalls (s ++ t) = acceptCalls s + acceptCalls t := by
  induction s with
  | nil => simp [acceptCalls]
  | cons e s ih => cases e <;> simp [acceptCalls, ih]; omega

/-- The accept loop of Model A over descriptors and interruptions, up to the
first would-block. -/
theorem acceptLoop_drain (listen : Int) (w : SysRet) (rest : List SysRet)
    (hw : w.ret < 0) (hwe : w.errno = EAGAIN ∨ w.errno = EWOULDBLOCK) (pre : List SysRet) :
    (∀ r ∈ pre, 0 ≤ r.ret ∨ (r.ret < 0 ∧ r.errno = EINTR)) →
      (acceptLoop listen (pre ++ w :: rest)).returned = true ∧
      handedOffA (acceptLoop listen (pre ++ w :: rest)).trace = descriptors pre ∧
      (acceptLoop listen (pre ++ w :: rest)).rest = rest ∧
      acceptCalls (acceptLoop listen (pre ++ w :: rest)).trace = pre.length + 1 := by
  induction pre with
  | nil =>
    intro _
    have h4 : w.errno ≠ EINTR := by
      rcases hwe with h | h <;> rw [h] <;> decide
    by_cases h1 : w.errno = EAGAIN ∨ w.errno = EWOULDBLOCK <;>
      simp [acceptLoop, hw, h4, h1, handedOffA, descriptors, acceptCalls]
  | cons r pre ih =>
    intro hpre
    obtain ⟨i1, i2, i3, i4⟩ := ih (fun x hx => hpre x (List.mem_cons_of_mem _ hx))
    rcases hpre r (List.mem_cons_self _ _) with h | ⟨h, he⟩
    · have hneg : ¬ r.ret < 0 := not_lt.mpr h
      simp [acceptLoop, hneg, AcceptRun.cons, handedOffA, descriptors, acceptCalls, h, i1, i3,
        i4]
      simpa [descriptors] using i2
    · have hnn : ¬ 0 ≤ r.ret := not_le.mpr h
      simp [acceptLoop, h, he, AcceptRun.cons, handedOffA, descriptors, acceptCalls, hnn, i1,
        i3, i4]
      simpa [descriptors] using i2

/-- Successive runs of `accept_cb`, one per result, over descriptors and
interruptions. -/
theorem accept_cb_times_all (listener : Int) (tail : List SysRet) (pre : List SysRet) :
    ∀ k, (accept_cb_times listener pre.length k (pre ++ tail)).2.1.map (fun c => c.fd) =
        descriptors pre ∧
      (accept_cb_times listener pre.length k (pre ++ tail)).2.2 = tail ∧
      acceptCalls (accept_cb_times listener pre.length k (pre ++ tail)).1 = pre.length := by
  induction pre with
  | nil => intro k; simp [accept_cb_times, descriptors, acceptCalls]
  | cons r pre ih =>
    intro k
    obtain ⟨i1, i2, i3⟩ := ih (k + 1)
    by_cases h : r.ret < 0
    · have hnn : ¬ 0 ≤ r.ret := not_le.mpr h
      simp [accept_cb_times, accept_cb, h, hnn, descriptors, acceptCalls, i2, i3]
      simpa [descriptors] using i1
    · have hnn : 0 ≤ r.ret := not_lt.mp h
      simp [accept_cb_times, accept_cb, h, hnn, descriptors, acceptCalls, i2, i3]
      simpa [descriptors] using i1

/-- C3 as the code has it: one run of `test_accept` (Model A) drains the
backlog: when `accept` yields descriptors, with interruptions in between, and
then reports would-block, the run hands every descriptor to a connection
handler, stops at the would-block and registers the listener again.  One run
of `accept_cb` (Model B) issues exactly one `accept` and hands over at most
one descriptor; the descriptors are accepted by as many runs as there are
results. -/
theorem backlog_drain (listen : Int) (pre rest : List SysRet) (w : SysRet)
    (hpre : ∀ r ∈ pre, 0 ≤ r.ret ∨ (r.ret < 0 ∧ r.errno = EINTR))
    (hw : w.ret < 0) (hwe : w.errno = EAGAIN ∨ w.errno = EWOULDBLOCK) :
    ((test_accept listen (pre ++ w :: rest)).returned = true ∧
      handedOffA (test_accept listen (pre ++ w :: rest)).trace = descriptors pre ∧
      (test_accept listen (pre ++ w :: rest)).rest = rest ∧
      acceptCalls (test_accept listen (pre ++ w :: rest)).trace = pre.length + 1 ∧
      ∃ t, (test_accept listen (pre ++ w :: rest)).trace = t ++ [.addEvent listen .test_accept]) ∧
    (∀ (r : SysRet) (re te : Option Nat),
      acceptCalls (accept_cb listen r re te).1 = 1 ∧
      ((accept_cb listen r re te).2 = if r.ret < 0 then none else some ⟨r.ret, re, te⟩)) ∧
    (∀ k, (accept_cb_times listen pre.length k (pre ++ w :: rest)).2.1.map (fun c => c.fd) =
        descriptors pre ∧
      (accept_cb_times listen pre.length k (pre ++ w :: rest)).2.2 = w :: rest ∧
      acceptCalls (accept_cb_times listen pre.length k (pre ++ w :: rest)).1 = pre.length) := by
  obtain ⟨a1, a2, a3, a4⟩ := acceptLoop_drain listen w rest hw hwe pre hpre
  refine ⟨?_, ?_, fun k => accept_cb_times_all listen (w :: rest) pre k⟩
  · simp only [test_accept, a1, if_true]
    refine ⟨trivial, ?_, a3, ?_, _, rfl⟩
    · rw [handedOffA_append, a2]; simp [handedOffA]
    · rw [acceptCalls_append, a4]; simp [acceptCalls]
  · intro r re te
    by_cases h : r.ret < 0 <;> simp [accept_cb, h, acceptCalls]

/-- Two descriptors, an interruption in between, then would-block. -/
theorem backlog_drain_witness :
    handedOffA (test_accept 3 [⟨5, 0⟩, ⟨-1, 4⟩, ⟨6, 0⟩, ⟨-1, 11⟩, ⟨7, 0⟩]).trace = [5, 6] ∧
      (accept_cb_times 3 3 0 [⟨5, 0⟩, ⟨-1, 4⟩, ⟨6, 0⟩, ⟨-1, 11⟩, ⟨7, 0⟩]).2.1.map (fun c => c.fd)
        = [5, 6] :=
  have h := backlog_drain 3 [⟨5, 0⟩, ⟨-1, 4⟩, ⟨6, 0⟩] [⟨7, 0⟩] ⟨-1, 11⟩
    (by decide) (by decide) (by decide)
  ⟨h.1.2.1, (h.2.2 0).1⟩

/-- C3 fails for Model B: with two connections pending, one run of
`accept_cb` accepts the first one only and leaves the second for another
readiness notification. -/
theorem accept_cb_single_accept :
    (accept_cb_times 3 1 0 [⟨5, 0⟩, ⟨6, 0⟩, ⟨-1, EAGAIN⟩]).2.1.map (fun c => c.fd) = [5] ∧
      descriptors [⟨5, 0⟩, ⟨6, 0⟩] = [5, 6] ∧
      (accept_cb_times 3 1 0 [⟨5, 0⟩, ⟨6, 0⟩, ⟨-1, EAGAIN⟩]).2.1.map (fun c => c.fd) ≠
        descriptors [⟨5, 0⟩, ⟨6, 0⟩] ∧
      (accept_cb_times 3 1 0 [⟨5, 0⟩, ⟨6, 0⟩, ⟨-1, EAGAIN⟩]).2.2 = [⟨6, 0⟩, ⟨-1, EAGAIN⟩] ∧
      (accept_cb 3 ⟨5, 0⟩ (some 0) (some 1)).1 =
        [.accept 3 ⟨5, 0⟩, .make_socket_nonblocking 5, .event_add (some 0)] := by
  decide

/-! ## Lifecycle -/

theorem lifecycle_append (fd : Int) (t1 t2 : List Ev) :
    ∀ s, lifecycle fd s (t1 ++ t2) =
      match lifecycle fd s t1 with
      | some s' => lifecycle fd s' t2
      | none => none := by
  induction t1 with
  | nil => intro s; rfl
  | cons e t1 ih =>
    intro s
    simp only [List.cons_append, lifecycle]
    cases s.next fd e with
    | none => rfl
    | some s' => exact ih s'

theorem lifecycle_sends (fd : Int) (sends : List Ev)
    (h : ∀ e ∈ sends, ∃ b o l r, e = .send fd b o l r) :
    lifecycle fd .Writing sends = some .Writing := by
  induction sends with
  | nil => rfl
  | cons e t ih =>
    obtain ⟨b, o, l, r, he⟩ := h e (List.mem_cons_self _ _)
    rw [he]
    simp only [lifecycle, Stage.next, if_true]
    exact ih (fun x hx => h x (List.mem_cons_of_mem _ hx))

/-- A Model A loop that has bytes left issues a send first, unless the script
is used up. -/
theorem sendLoopA_head (fd : Int) (b : Buf) (len off : Nat) (script : List SysRet)
    (h : off < len) :
    ((sendLoopA fd b len off script).exit = .pending ∧ (sendLoopA fd b len off script).trace = []) ∨
      ∃ r t, (sendLoopA fd b len off script).trace = .send fd b off (len - off) r :: t := by
  cases script with
  | nil => left; simp [sendLoopA, h]
  | cons m rs =>
    right
    by_cases hm : 0 < m.ret
    · rw [sendLoopA_pos fd b len off m rs h hm]; exact ⟨_, _, rfl⟩
    · by_cases ht : m.ret < 0 ∧ (m.errno = EINTR ∨ m.errno = EAGAIN)
      · rw [sendLoopA_retry fd b len off m rs h hm ht]; exact ⟨_, _, rfl⟩
      · rw [sendLoopA_fail fd b len off m rs h hm ht]; exact ⟨_, _, rfl⟩

/-- A Model B loop that has bytes left issues a send first, unless the script
is used up. -/
theorem sendLoopB_head (fd : Int) (b : Buf) (p left : Nat) (script : List SysRet)
    (h : left ≠ 0) :
    ((sendLoopB fd b p left script).exit = .pending ∧ (sendLoopB fd b p left script).trace = []) ∨
      ∃ r t, (sendLoopB fd b p left script).trace = .send fd b p left r :: t := by
  cases script with
  | nil => left; simp [sendLoopB, h]
  | cons m rs =>
    right
    by_cases hm : 0 < m.ret
    · rw [sendLoopB_pos fd b p left m rs h hm]; exact ⟨_, _, rfl⟩
    · by_cases ht : m.transient
      · rw [sendLoopB_retry fd b p left m rs h hm ht]; exact ⟨_, _, rfl⟩
      · rw [sendLoopB_fail fd b p left m rs h hm ht]; exact ⟨_, _, rfl⟩

/-- Stage reached by the trace of a Model A loop entered with bytes left. -/
theorem lifecycle_sendLoopA (fd : Int) (b : Buf) (len off : Nat) (script : List SysRet)
    (h : off < len) (s : Stage) (hs : s = .Delaying ∨ s = .Writing) :
    lifecycle fd s (sendLoopA fd b len off script).trace =
      match (sendLoopA fd b len off script).exit with
      | .pending => some (if (sendLoopA fd b len off script).trace = [] then s else .Writing)
      | .done => some .Writing
      | .failed => some .Closed := by
  obtain ⟨sends, h1, h2⟩ := sendLoopA_shape fd b len script off
  have h1' : ∀ e ∈ sends, ∃ b o l r, e = Ev.send fd b o l r :=
    fun e he => let ⟨o, l, r, hh⟩ := h1 e he; ⟨b, o, l, r, hh⟩
  rcases sendLoopA_head fd b len off script h with ⟨hp, ht⟩ | ⟨r, t, ht⟩
  · rw [hp, ht]; simp [lifecycle]
  · cases sends with
    | nil =>
      rw [h2] at ht
      cases hE : (sendLoopA fd b len off script).exit <;> simp [hE] at ht
    | cons e sends =>
      have hw : lifecycle fd s (e :: sends) = some .Writing := by
        obtain ⟨b', o, l, r', he⟩ := h1' e (List.mem_cons_self _ _)
        have := lifecycle_sends fd sends (fun x hx => h1' x (List.mem_cons_of_mem _ hx))
        rcases hs with hs | hs <;> rw [hs, he] <;> simp [lifecycle, Stage.next, this]
      rw [h2, lifecycle_append, hw]
      cases hE : (sendLoopA fd b len off script).exit with
      | done => simp [lifecycle]
      | failed => simp [lifecycle, Stage.next]
      | pending => simp [lifecycle]

/-- Stage reached by the trace of a Model B loop entered with bytes left. -/
theorem lifecycle_sendLoopB (fd : Int) (b : Buf) (p left : Nat) (script : List SysRet)
    (h : left ≠ 0) (s : Stage) (hs : s = .Delaying ∨ s = .Writing) :
    lifecycle fd s (sendLoopB fd b p left script).trace =
      match (sendLoopB fd b p left script).exit with
      | .pending => some (if (sendLoopB fd b p left script).trace = [] then s else .Writing)
      | _ => some .Writing := by
  have h1 := sendLoopB_shape fd b script p left
  have h1' : ∀ e ∈ (sendLoopB fd b p left script).trace, ∃ b o l r, e = Ev.send fd b o l r :=
    fun e he => let ⟨o, l, r, hh⟩ := h1 e he; ⟨b, o, l, r, hh⟩
  rcases sendLoopB_head fd b p left script h with ⟨hp, ht⟩ | ⟨r, t, ht⟩
  · rw [hp, ht]; simp [lifecycle]
  · have hw : lifecycle fd s (sendLoopB fd b p left script).trace = some .Writing := by
      rw [ht] at h1' ⊢
      have := lifecycle_sends fd t (fun x hx => h1' x (List.mem_cons_of_mem _ hx))
      rcases hs with hs | hs <;> rw [hs] <;> simp [lifecycle, Stage.next, this]
    rw [hw]
    cases hE : (sendLoopB fd b p left script).exit <;> simp [ht]

theorem lifecycle_conn_handler (fd : Int) (n : SysRet) (buf : List Char) (script : List SysRet) :
    ∃ s, lifecycle fd .Reading (conn_handler fd n buf script).trace = some s ∧
      ((conn_handler fd n buf script).exit ≠ none ↔ s = .Closed) := by
  by_cases hn : n.ret ≤ 0
  · have hn' : ¬ 0 < n.ret := not_lt.mpr hn
    refine ⟨.Closed, ?_, ?_⟩ <;> simp [conn_handler, hn, hn', lifecycle, Stage.next]
  · have hn' : 0 < n.ret := not_le.mp hn
    have hpre : ∀ t, lifecycle fd .Reading ([.recv fd 1024 n, .usleep 20000] ++ t) =
        lifecycle fd .Delaying t := by
      intro t; simp [lifecycle, Stage.next, hn']
    have hH := lifecycle_sendLoopA fd .header hl 0 script (by decide) .Delaying (Or.inl rfl)
    have hB := lifecycle_sendLoopA fd .body (strlen body) 0
      (sendLoopA fd .header hl 0 script).rest (by decide) .Writing (Or.inr rfl)
    rw [conn_handler_pos fd n buf script hn']
    by_cases hd : (sendLoopA fd .header hl 0 script).exit = .done
    · rw [if_pos hd]
      rw [hd] at hH
      simp only [List.append_assoc]
      rw [hpre, lifecycle_append, hH]
      simp only
      rw [lifecycle_append, hB]
      cases hE : (sendLoopA fd .body (strlen body) 0 (sendLoopA fd .header hl 0 script).rest).exit
        <;> simp [lifecycle, Stage.next]
    · rw [if_neg hd, hpre, hH]
      cases hE : (sendLoopA fd .header hl 0 script).exit with
      | done => exact absurd hE hd
      | failed => simp
      | pending =>
        by_cases ht : (sendLoopA fd .header hl 0 script).trace = [] <;> simp [ht]

theorem lifecycle_cleanup (fd : Int) (ctx : ConnCtx) (s : Stage)
    (hs : s = .ReadEnd ∨ s = .Writing) :
    lifecycle fd s (cleanup fd ctx) = some .Closed := by
  obtain ⟨cfd, rev, tev⟩ := ctx
  rcases hs with hs | hs <;> rw [hs] <;> cases rev <;> cases tev <;>
    simp [cleanup, lifecycle, Stage.next]

theorem lifecycle_delayed_send_cb (ctx : ConnCtx) (script : List SysRet) :
    ∃ s, lifecycle ctx.fd .Delaying (delayed_send_cb ctx script).trace = some s ∧
      ((delayed_send_cb ctx script).exit ≠ none ↔ s = .Closed) := by
  have hH := lifecycle_sendLoopB ctx.fd .header 0 hl script (by decide) .Delaying (Or.inl rfl)
  have hB := lifecycle_sendLoopB ctx.fd .body 0 (strlen body)
    (sendLoopB ctx.fd .header 0 hl script).rest (by decide) .Writing (Or.inr rfl)
  rw [delayed_send_cb_eq]
  by_cases hp : (sendLoopB ctx.fd .header 0 hl script).exit = .pending
  · rw [if_pos hp, hH, hp]
    by_cases ht : (sendLoopB ctx.fd .header 0 hl script).trace = [] <;> simp [ht]
  · rw [if_neg hp]
    have hH' : lifecycle ctx.fd .Delaying (sendLoopB ctx.fd .header 0 hl script).trace =
        some .Writing := by
      rw [hH]
      cases hE : (sendLoopB ctx.fd .header 0 hl script).exit with
      | pending => exact absurd hE hp
      | _ => rfl
    by_cases hq : (sendLoopB ctx.fd .body 0 (strlen body)
        (sendLoopB ctx.fd .header 0 hl script).rest).exit = .pending
    · rw [if_pos hq, lifecycle_append, hH']
      simp only
      rw [hB, hq]
      simp
    · rw [if_neg hq, List.append_assoc, lifecycle_append, hH']
      simp only
      have hB' : lifecycle ctx.fd .Writing (sendLoopB ctx.fd .body 0 (strlen body)
          (sendLoopB ctx.fd .header 0 hl script).rest).trace = some .Writing := by
        rw [hB]
        cases hE : (sendLoopB ctx.fd .body 0 (strlen body)
          (sendLoopB ctx.fd .header 0 hl script).rest).exit with
        | pending => exact absurd hE hq
        | _ => rfl
      rw [lifecycle_append, hB']
      simp only
      rw [lifecycle_cleanup ctx.fd ctx .Writing (Or.inr rfl)]
      simp

theorem lifecycle_callback_chain (ctx : ConnCtx) (n : SysRet) (buf : List Char)
    (script : List SysRet) :
    ∃ s, lifecycle ctx.fd .Reading (callback_chain ctx n buf script).trace = some s ∧
      ((callback_chain ctx n buf script).exit ≠ none ↔ s = .Closed) := by
  by_cases hn : n.ret ≤ 0
  · rw [callback_chain_nonpos ctx n buf script hn]
    refine ⟨.Closed, ?_, by simp⟩
    have hn' : ¬ 0 < n.ret := not_lt.mpr hn
    have e : lifecycle ctx.fd .Reading (.recv ctx.fd 1024 n :: cleanup ctx.fd ctx) =
        lifecycle ctx.fd .ReadEnd (cleanup ctx.fd ctx) := by
      generalize cleanup ctx.fd ctx = c
      simp [lifecycle, Stage.next, hn']
    rw [e]
    exact lifecycle_cleanup ctx.fd ctx .ReadEnd (Or.inl rfl)
  · have hn' : 0 < n.ret := not_le.mp hn
    cases ht : ctx.timer_ev with
    | none =>
      refine ⟨.Delaying, ?_, ?_⟩
      · cases hr : ctx.read_ev <;>
          simp [callback_chain, http_read_cb, hn, ht, hr, lifecycle, Stage.next, hn']
      · simp [callback_chain, http_read_cb, hn, ht]
    | some t =>
      rw [callback_chain_pos ctx t n buf script hn' ht]
      obtain ⟨s, hs1, hs2⟩ := lifecycle_delayed_send_cb ctx script
      refine ⟨s, ?_, hs2⟩
      have : lifecycle ctx.fd .Reading (.recv ctx.fd 1024 n ::
          ((match ctx.read_ev with | some e => [Ev.event_del e] | none => []) ++
            [.evtimer_add (some t) 0 20000])) = some .Delaying := by
        cases hr : ctx.read_ev <;> simp [lifecycle, Stage.next, hn']
      rw [lifecycle_append, this]
      exact hs1

/-! ## Counting the releases -/

theorem count_sends (sends : List Ev) (x : Ev)
    (h : ∀ e ∈ sends, ∃ fd b o l r, e = .send fd b o l r)
    (hx : ∀ fd b o l r, x ≠ .send fd b o l r) : sends.count x = 0 := by
  apply List.count_eq_zero_of_not_mem
  intro hm
  obtain ⟨fd, b, o, l, r, he⟩ := h x hm
  exact hx fd b o l r he

theorem sendLoopA_count_close (fd : Int) (b : Buf) (len off : Nat) (script : List SysRet) :
    (sendLoopA fd b len off script).trace.count (.close fd) =
      if (sendLoopA fd b len off script).exit = .failed then 1 else 0 := by
  obtain ⟨sends, h1, h2⟩ := sendLoopA_shape fd b len script off
  rw [h2, List.count_append,
    count_sends sends (.close fd) (fun e he => let ⟨o, l, r, hh⟩ := h1 e he; ⟨fd, b, o, l, r, hh⟩)
      (by simp)]
  split <;> simp

theorem sendLoopB_count (fd : Int) (b : Buf) (p left : Nat) (script : List SysRet) (x : Ev)
    (hx : ∀ fd b o l r, x ≠ .send fd b o l r) :
    (sendLoopB fd b p left script).trace.count x = 0 :=
  count_sends _ x
    (fun e he => let ⟨o, l, r, hh⟩ := sendLoopB_shape fd b script p left e he; ⟨fd, b, o, l, r, hh⟩)
    hx

theorem conn_handler_close_count (fd : Int) (n : SysRet) (buf : List Char)
    (script : List SysRet) :
    ((conn_handler fd n buf script).exit = none ∧
        (conn_handler fd n buf script).trace.count (.close fd) = 0) ∨
      (∃ x, (conn_handler fd n buf script).exit = some x ∧
        (conn_handler fd n buf script).trace.count (.close fd) = 1 ∧
        (x = .peerClosed ↔ n.ret ≤ 0)) := by
  by_cases hn : n.ret ≤ 0
  · right
    exact ⟨.peerClosed, by simp [conn_handler, hn], by simp [conn_handler, hn], by simp [hn]⟩
  · have hn' : 0 < n.ret := not_le.mp hn
    have cH := sendLoopA_count_close fd .header hl 0 script
    have cB := sendLoopA_count_close fd .body (strlen body) 0
      (sendLoopA fd .header hl 0 script).rest
    rw [conn_handler_pos fd n buf script hn']
    cases hE : (sendLoopA fd .header hl 0 script).exit with
    | done =>
      rw [hE] at cH
      cases hB : (sendLoopA fd .body (strlen body) 0 (sendLoopA fd .header hl 0 script).rest).exit
        with
      | done =>
        rw [hB] at cB
        right
        refine ⟨.sendDone, by simp, ?_, by simp [hn]⟩
        simp [List.count_append, cH, cB, List.count_cons]
      | failed =>
        rw [hB] at cB
        right
        refine ⟨.sendError, by simp, ?_, by simp [hn]⟩
        simp [List.count_append, cH, cB, List.count_cons]
      | pending =>
        rw [hB] at cB
        left
        refine ⟨by simp, ?_⟩
        simp [List.count_append, cH, cB, List.count_cons]
    | failed =>
      rw [hE] at cH
      right
      refine ⟨.sendError, by simp, ?_, by simp [hn]⟩
      simp [List.count_append, cH, List.count_cons]
    | pending =>
      rw [hE] at cH
      left
      refine ⟨by simp, ?_⟩
      simp [List.count_append, cH, List.count_cons]

theorem cleanup_some (fd : Int) (ctx : ConnCtx) (r t : Nat)
    (hr : ctx.read_ev = some r) (ht : ctx.timer_ev = some t) :
    cleanup fd ctx = [.close fd, .event_free r, .event_free t, .free_ctx] := by
  simp [cleanup, hr, ht]

theorem callback_chain_release (ctx : ConnCtx) (r t : Nat) (n : SysRet) (buf : List Char)
    (script : List SysRet) (hr : ctx.read_ev = some r) (ht : ctx.timer_ev = some t) :
    ((callback_chain ctx n buf script).exit = none ∧
        ∀ x ∈ [Ev.close ctx.fd, .event_free r, .event_free t, .free_ctx],
          (callback_chain ctx n buf script).trace.count x = 0) ∨
      (∃ x front, (callback_chain ctx n buf script).exit = some x ∧
        (x = .peerClosed ↔ n.ret ≤ 0) ∧
        (callback_chain ctx n buf script).trace =
          front ++ [.close ctx.fd, .event_free r, .event_free t, .free_ctx] ∧
        ∀ x ∈ [Ev.close ctx.fd, .event_free r, .event_free t, .free_ctx], front.count x = 0) := by
  by_cases hn : n.ret ≤ 0
  · right
    refine ⟨.peerClosed, [.recv ctx.fd 1024 n], ?_, by simp [hn], ?_, ?_⟩
    · rw [callback_chain_nonpos ctx n buf script hn]
    · rw [callback_chain_nonpos ctx n buf script hn, cleanup_some ctx.fd ctx r t hr ht]
      rfl
    · intro x hx
      simp at hx
      rcases hx with h | h | h | h <;> simp [h]
  · have hn' : 0 < n.ret := not_le.mp hn
    have hpre : ∀ x ∈ [Ev.close ctx.fd, .event_free r, .event_free t, .free_ctx],
        (Ev.recv ctx.fd 1024 n :: ([Ev.event_del r] ++ [.evtimer_add (some t) 0 20000])).count x
          = 0 := by
      intro x hx
      simp at hx
      rcases hx with h | h | h | h <;> simp [h, List.count_cons]
    have hsend : ∀ x ∈ [Ev.close ctx.fd, .event_free r, .event_free t, .free_ctx],
        ∀ fd b o l m, x ≠ Ev.send fd b o l m := by
      intro x hx
      simp at hx
      rcases hx with h | h | h | h <;> simp [h]
    rw [callback_chain_pos ctx t n buf script hn' ht, delayed_send_cb_eq, hr]
    by_cases hp : (sendLoopB ctx.fd .header 0 hl script).exit = .pending
    · left
      rw [if_pos hp]
      refine ⟨rfl, fun x hx => ?_⟩
      rw [List.count_append, hpre x hx, sendLoopB_count _ _ _ _ _ x (hsend x hx)]
    · rw [if_neg hp]
      by_cases hq : (sendLoopB ctx.fd .body 0 (strlen body)
          (sendLoopB ctx.fd .header 0 hl script).rest).exit = .pending
      · left
        rw [if_pos hq]
        refine ⟨rfl, fun x hx => ?_⟩
        rw [List.count_append, List.count_append, hpre x hx,
          sendLoopB_count _ _ _ _ _ x (hsend x hx), sendLoopB_count _ _ _ _ _ x (hsend x hx)]
      · right
        rw [if_neg hq, cleanup_some ctx.fd ctx r t hr ht]
        refine ⟨_, (Ev.recv ctx.fd 1024 n :: ([Ev.event_del r] ++ [.evtimer_add (some t) 0 20000]))
          ++ ((sendLoopB ctx.fd .header 0 hl script).trace ++
            (sendLoopB ctx.fd .body 0 (strlen body)
              (sendLoopB ctx.fd .header 0 hl script).rest).trace), rfl, ?_, ?_, fun x hx => ?_⟩
        · constructor
          · intro h
            split at h <;> simp at h
          · intro h; exact absurd h hn
        · simp only [List.append_assoc]
        · rw [List.count_append, List.count_append, hpre x hx,
            sendLoopB_count _ _ _ _ _ x (hsend x hx), sendLoopB_count _ _ _ _ _ x (hsend x hx)]

/-- C8: exactly-once close.  For every receive result and every script of
send results, a handler that has not returned has not closed the descriptor,
and a handler that has returned took one terminal path (peer disconnect
exactly when the receive was not positive) and closed the descriptor exactly
once.  In Model B, for a context with two distinct events, the trace of a
finished connection ends with `close`, the release of the read event, the
release of the timer event and then the release of the context, none of
which occurs earlier, so each happens exactly once and the events are freed
before the context. -/
theorem close_exactly_once (fd : Int) (ctx : ConnCtx) (r t : Nat) (n : SysRet)
    (buf : List Char) (script : List SysRet)
    (hr : ctx.read_ev = some r) (ht : ctx.timer_ev = some t) (hrt : r ≠ t) :
    (((conn_handler fd n buf script).exit = none ∧
        (conn_handler fd n buf script).trace.count (.close fd) = 0) ∨
      (∃ x, (conn_handler fd n buf script).exit = some x ∧
        (conn_handler fd n buf script).trace.count (.close fd) = 1 ∧
        (x = .peerClosed ↔ n.ret ≤ 0))) ∧
    (((callback_chain ctx n buf script).exit = none ∧
        ∀ x ∈ [Ev.close ctx.fd, .event_free r, .event_free t, .free_ctx],
          (callback_chain ctx n buf script).trace.count x = 0) ∨
      (∃ x front, (callback_chain ctx n buf script).exit = some x ∧
        (x = .peerClosed ↔ n.ret ≤ 0) ∧
        (callback_chain ctx n buf script).trace =
          front ++ [.close ctx.fd, .event_free r, .event_free t, .free_ctx] ∧
        (∀ x ∈ [Ev.close ctx.fd, .event_free r, .event_free t, .free_ctx], front.count x = 0) ∧
        (∀ x ∈ [Ev.close ctx.fd, .event_free r, .event_free t, .free_ctx],
          (callback_chain ctx n buf script).trace.count x = 1))) := by
  refine ⟨conn_handler_close_count fd n buf script, ?_⟩
  rcases callback_chain_release ctx r t n buf script hr ht with h | ⟨x, front, h1, h2, h3, h4⟩
  · exact Or.inl h
  · right
    refine ⟨x, front, h1, h2, h3, h4, fun y hy => ?_⟩
    rw [h3, List.count_append, h4 y hy]
    have hrt' : ¬ t = r := fun h => hrt h.symm
    simp at hy
    rcases hy with h | h | h | h <;> simp [h, List.count_cons, hrt, hrt']

/-- A connection whose body send fails. -/
theorem close_exactly_once_witness :
    (conn_handler 5 ⟨4, 0⟩ "ping".toList [⟨84, 0⟩, ⟨-1, 104⟩]).trace.count (.close 5) = 1 ∧
      (callback_chain ⟨5, some 0, some 1⟩ ⟨4, 0⟩ "ping".toList [⟨84, 0⟩, ⟨-1, 104⟩]).trace.count
        (.event_free 1) = 1 := by
  have h := close_exactly_once 5 ⟨5, some 0, some 1⟩ 0 1 ⟨4, 0⟩ "ping".toList
    [⟨84, 0⟩, ⟨-1, 104⟩] rfl rfl (by decide)
  refine ⟨?_, ?_⟩
  · rcases h.1 with ⟨h1, _⟩ | ⟨x, _, h2, _⟩
    · exact absurd h1 (by decide)
    · exact h2
  · rcases h.2 with ⟨h1, _⟩ | ⟨x, front, _, _, _, _, h5⟩
    · exact absurd h1 (by decide)
    · exact h5 _ (by simp)

/-! ## Return of `delayed_send_cb` -/

theorem length_eq_transients_add_decisive (rs : List SysRet) :
    rs.length = transients rs + decisive rs := by
  unfold transients decisive
  induction rs with
  | nil => rfl
  | cons r rs ih =>
    by_cases h : r.transient <;> simp [List.countP_cons, h, ih] <;> omega

theorem attempts_append (s t : List Ev) : attempts (s ++ t) = attempts s + attempts t := by
  simp [attempts, sendRequests_append]

theorem attempts_not_send (s : List Ev) (hs : ∀ e ∈ s, ∀ fd b o l r, e ≠ .send fd b o l r) :
    attempts s = 0 := by
  induction s with
  | nil => rfl
  | cons e s ih =>
    have ih' := ih (fun e he => hs e (List.mem_cons_of_mem _ he))
    cases e with
    | send fd b o l r => exact absurd rfl (hs _ (List.mem_cons_self _ _) fd b o l r)
    | _ => simpa [attempts, sendRequests] using ih'

/-- Every result that is not transient brings the Model B loop nearer to its
end: a success takes at least one byte off `left`, anything else is a
`break`. -/
theorem sendLoopB_measure (fd : Int) (b : Buf) (script : List SysRet) :
    ∀ p left, left < SIZE_MOD →
      (∀ e ∈ (sendLoopB fd b p left script).trace, e.valid) →
      decisive script + (if (sendLoopB fd b p left script).exit = .pending then 1 else 0) ≤
        decisive (sendLoopB fd b p left script).rest + left ∧
      ((sendLoopB fd b p left script).exit = .pending →
        (sendLoopB fd b p left script).rest = []) ∧
      attempts (sendLoopB fd b p left script).trace + (sendLoopB fd b p left script).rest.length =
        script.length := by
  induction script with
  | nil =>
    intro p left _ _
    by_cases h0 : left = 0
    · simp [sendLoopB, h0, decisive, attempts, sendRequests]
    · simp [sendLoopB, h0, decisive, attempts, sendRequests]
      omega
  | cons m rs ih =>
    intro p left hlt hv
    by_cases h0 : left = 0
    · rw [h0, sendLoopB_stop]
      simp [attempts, sendRequests]
    · by_cases hm : 0 < m.ret
      · have hnt : ¬ m.transient := fun h => by have := h.1; omega
        rw [sendLoopB_pos fd b p left m rs h0 hm] at hv ⊢
        have hhead : m.ret ≤ (left : Int) := by
          have := hv (.send fd b p left m) (by simp [Loop.cons])
          simpa [Ev.valid] using this
        have hk : m.ret.toNat ≤ left := by omega
        have hk0 : 0 < m.ret.toNat := by omega
        have h1 : m.ret.toNat % SIZE_MOD = m.ret.toNat := Nat.mod_eq_of_lt (by omega)
        have h2 : (left + SIZE_MOD - m.ret.toNat) % SIZE_MOD = left - m.ret.toNat := by
          have : left + SIZE_MOD - m.ret.toNat = (left - m.ret.toNat) + SIZE_MOD := by omega
          rw [this, Nat.add_mod_right]
          exact Nat.mod_eq_of_lt (by omega)
        rw [h1, h2] at hv ⊢
        obtain ⟨i1, i2, i3⟩ := ih (p + m.ret.toNat) (left - m.ret.toNat) (by omega)
          (fun e he => hv e (by simp [Loop.cons, he]))
        refine ⟨?_, by simpa [Loop.cons] using i2, ?_⟩
        · simp only [Loop.cons, decisive, List.countP_cons, hnt, not_false_eq_true,
            decide_True, if_true] at i1 ⊢
          omega
        · simp only [Loop.cons, attempts, sendRequests, List.length_cons] at i3 ⊢
          omega
      · by_cases ht : m.transient
        · rw [sendLoopB_retry fd b p left m rs h0 hm ht] at hv ⊢
          obtain ⟨i1, i2, i3⟩ := ih p left hlt (fun e he => hv e (by simp [Loop.cons, he]))
          refine ⟨?_, by simpa [Loop.cons] using i2, ?_⟩
          · simp only [Loop.cons, decisive, List.countP_cons, ht, not_true_eq_false,
              decide_False] at i1 ⊢
            simpa using i1
          · simp only [Loop.cons, attempts, sendRequests, List.length_cons] at i3 ⊢
            omega
        · rw [sendLoopB_fail fd b p left m rs h0 hm ht]
          refine ⟨?_, by simp, ?_⟩
          · simp only [decisive, List.countP_cons, ht, not_false_eq_true, decide_True, if_true]
            simp
            omega
          · simp [attempts, sendRequests]
            omega

/-- Under would-block without end the header loop of Model B never leaves:
after `k` such results it has issued `k` sends of the whole header and waits
for the next result. -/
theorem sendLoopB_spin (fd : Int) (k : Nat) :
    sendLoopB fd .header 0 hl (List.replicate k ⟨-1, EAGAIN⟩) =
      ⟨List.replicate k (.send fd .header 0 hl ⟨-1, EAGAIN⟩), .pending, []⟩ := by
  induction k with
  | zero => simp [sendLoopB, hl_eq]
  | succ k ih =>
    rw [List.replicate_succ, sendLoopB_retry fd .header 0 hl ⟨-1, EAGAIN⟩ _ (by decide)
      (by decide) (by decide), ih]
    simp [Loop.cons, List.replicate_succ]

theorem firstResults_const (r : SysRet) (k : Nat) :
    firstResults (fun _ => r) k = List.replicate k r := by
  unfold firstResults
  induction k with
  | zero => rfl
  | succ k ih => rw [List.range_succ, List.map_append, ih]; simp [List.replicate_succ']

/-- C9 as the code has it: `http_read_cb` issues one `recv` and no `send`
per run, but `delayed_send_cb` repeats a send that reported EINTR or
would-block inside the same run.  It returns once the results it is given
hold as many non-transient results as the response has bytes (each success
within the requested length), after no more sends than the transient results
plus the bytes of the response. -/
theorem delayed_send_cb_returns (ctx : ConnCtx) (script : List SysRet)
    (hv : ∀ e ∈ (delayed_send_cb ctx script).trace, e.valid)
    (hd : hl + strlen body ≤ decisive script) :
    (delayed_send_cb ctx script).exit ≠ none ∧
      attempts (delayed_send_cb ctx script).trace ≤ transients script + (hl + strlen body) ∧
      ∀ (fd : Int) (n : SysRet) (buf : List Char),
        recvCalls (http_read_cb fd ctx n buf).1 = 1 ∧ attempts (http_read_cb fd ctx n buf).1 = 0 := by
  have hlv : hl = 84 := hl_eq
  have hsb : strlen body = 13 := strlen_body
  have hS : hl < SIZE_MOD := by decide
  have hS' : strlen body < SIZE_MOD := by decide
  rw [delayed_send_cb_eq] at hv ⊢
  have hvH : ∀ e ∈ (sendLoopB ctx.fd .header 0 hl script).trace, e.valid := by
    intro e he
    apply hv e
    split_ifs <;> simp [he]
  obtain ⟨m1, m2, m3⟩ := sendLoopB_measure ctx.fd .header script 0 hl hS hvH
  have hp : ¬ (sendLoopB ctx.fd .header 0 hl script).exit = .pending := by
    intro hp
    rw [if_pos hp, m2 hp] at m1
    simp only [decisive, List.countP_nil] at m1 hd
    omega
  rw [if_neg hp] at hv m1 ⊢
  have hvB : ∀ e ∈ (sendLoopB ctx.fd .body 0 (strlen body)
      (sendLoopB ctx.fd .header 0 hl script).rest).trace, e.valid := by
    intro e he
    apply hv e
    split_ifs <;> simp [he]
  obtain ⟨k1, k2, k3⟩ := sendLoopB_measure ctx.fd .body
    (sendLoopB ctx.fd .header 0 hl script).rest 0 (strlen body) hS' hvB
  have hq : ¬ (sendLoopB ctx.fd .body 0 (strlen body)
      (sendLoopB ctx.fd .header 0 hl script).rest).exit = .pending := by
    intro hq
    rw [if_pos hq, k2 hq] at k1
    simp only [decisive, List.countP_nil] at m1 k1 hd
    omega
  rw [if_neg hq] at k1 ⊢
  refine ⟨by simp, ?_, ?_⟩
  · rw [attempts_append, attempts_append,
      attempts_not_send _ (cleanup_not_send ctx.fd ctx)]
    have e1 := length_eq_transients_add_decisive script
    have e2 := length_eq_transients_add_decisive
      (sendLoopB ctx.fd .body 0 (strlen body) (sendLoopB ctx.fd .header 0 hl script).rest).rest
    omega
  · intro fd n buf
    obtain ⟨cfd, rev, tev⟩ := ctx
    by_cases hn : n.ret ≤ 0 <;> cases rev <;> cases tev <;>
      simp [http_read_cb, hn, cleanup, recvCalls, attempts, sendRequests]

/-- Three would-block results, then one byte accepted per send. -/
theorem delayed_send_cb_returns_witness :
    hl + strlen body ≤ decisive (List.replicate 3 ⟨-1, EAGAIN⟩ ++ List.replicate 97 ⟨1, 0⟩) ∧
      (delayed_send_cb ⟨5, some 0, some 1⟩
        (List.replicate 3 ⟨-1, EAGAIN⟩ ++ List.replicate 97 ⟨1, 0⟩)).exit ≠ none :=
  ⟨by decide,
    (delayed_send_cb_returns ⟨5, some 0, some 1⟩
      (List.replicate 3 ⟨-1, EAGAIN⟩ ++ List.replicate 97 ⟨1, 0⟩) (by decide) (by decide)).1⟩

/-- C9 fails on the code: when send reports would-block without end, one run
of `delayed_send_cb` never returns, whatever number of results it is given;
and a would-block is answered by the same send again within the run. -/
theorem delayed_send_cb_busy_retry :
    (¬ ∀ s : Nat → SysRet, ∃ k,
        (delayed_send_cb ⟨5, some 0, some 1⟩ (firstResults s k)).exit ≠ none) ∧
      (delayed_send_cb ⟨5, some 0, some 1⟩ [⟨-1, EAGAIN⟩, ⟨84, 0⟩, ⟨13, 0⟩]).trace =
        [.send 5 .header 0 84 ⟨-1, EAGAIN⟩, .send 5 .header 0 84 ⟨84, 0⟩,
          .send 5 .body 0 13 ⟨13, 0⟩, .close 5, .event_free 0, .event_free 1, .free_ctx] := by
  refine ⟨?_, by decide⟩
  intro h
  obtain ⟨k, hk⟩ := h (fun _ => ⟨-1, EAGAIN⟩)
  apply hk
  rw [firstResults_const, delayed_send_cb_eq, sendLoopB_spin]
  simp

/-! ## The remaining claims -/

/-- C4: reading stage.  In both adapters a receive that returns zero or a
negative value closes the descriptor at once: the trace is the receive
followed by `close` (in Model B followed by the release of the events and of
the context), with no delay and no send.  A receive that returns a positive
count is followed by the delay request (`usleep(20000)`, respectively the
removal of the read event and `evtimer_add` with 0 s 20000 us) and not by a
close, whatever bytes were received. -/
theorem reading_stage (fd : Int) (ctx : ConnCtx) (n : SysRet) (payload : List Char)
    (script : List SysRet) :
    (n.ret ≤ 0 →
      conn_handler fd n payload script = ⟨[.recv fd 1024 n, .close fd], some .peerClosed⟩ ∧
      http_read_cb fd ctx n payload = (.recv fd 1024 n :: cleanup fd ctx, false) ∧
      callback_chain ctx n payload script =
        ⟨.recv ctx.fd 1024 n :: cleanup ctx.fd ctx, some .peerClosed⟩ ∧
      ∃ rest, cleanup fd ctx = .close fd :: rest ∧
        ∀ e ∈ rest, (∃ x, e = .event_free x) ∨ e = .free_ctx) ∧
    (0 < n.ret →
      (∃ rest, (conn_handler fd n payload script).trace =
        .recv fd 1024 n :: .usleep 20000 :: rest) ∧
      ∃ pre, http_read_cb fd ctx n payload =
          (.recv fd 1024 n :: (pre ++ [.evtimer_add ctx.timer_ev 0 20000]), true) ∧
        ∀ e ∈ pre, ∃ x, e = .event_del x) := by
  constructor
  · intro hn
    refine ⟨by simp [conn_handler, hn], by simp [http_read_cb, hn],
      callback_chain_nonpos ctx n payload script hn, ?_⟩
    obtain ⟨cfd, rev, tev⟩ := ctx
    cases rev <;> cases tev <;> simp [cleanup]
  · intro hn
    have hn' : ¬ n.ret ≤ 0 := not_le.mpr hn
    constructor
    · rw [conn_handler_pos fd n payload script hn]
      split <;> exact ⟨_, rfl⟩
    · refine ⟨(match ctx.read_ev with | some e => [.event_del e] | none => []), ?_, ?_⟩
      · simp [http_read_cb, hn']
      · intro e he
        cases hr : ctx.read_ev with
        | none => simp [hr] at he
        | some x => simp [hr] at he; exact ⟨x, he⟩

/-- An orderly close, and the request `ping`. -/
theorem reading_stage_witness :
    (0 : Int) ≤ 0 ∧ (0 : Int) < 4 ∧
      conn_handler 5 ⟨0, 0⟩ [] [⟨84, 0⟩] = ⟨[.recv 5 1024 ⟨0, 0⟩, .close 5], some .peerClosed⟩ ∧
      ∃ rest, (conn_handler 5 ⟨4, 0⟩ "ping".toList [⟨84, 0⟩]).trace =
        .recv 5 1024 ⟨4, 0⟩ :: .usleep 20000 :: rest :=
  ⟨by decide, by decide,
    ((reading_stage 5 ⟨5, some 0, some 1⟩ ⟨0, 0⟩ [] [⟨84, 0⟩]).1 (by decide)).1,
    ((reading_stage 5 ⟨5, some 0, some 1⟩ ⟨4, 0⟩ "ping".toList [⟨84, 0⟩]).2 (by decide)).1⟩

/-- C5 fails in Model B: when the first send of the header fails with
`ECONNRESET`, the `break` only leaves the header loop and `delayed_send_cb`
goes on to send the body before it closes; Model A closes right after the
failed send. -/
theorem header_error_falls_through :
    (delayed_send_cb ⟨5, some 0, some 1⟩ [⟨-1, ECONNRESET⟩, ⟨13, 0⟩]).trace =
        [.send 5 .header 0 84 ⟨-1, ECONNRESET⟩, .send 5 .body 0 13 ⟨13, 0⟩, .close 5,
          .event_free 0, .event_free 1, .free_ctx] ∧
      (delayed_send_cb ⟨5, some 0, some 1⟩ [⟨-1, ECONNRESET⟩, ⟨-1, EPIPE⟩]).trace =
        [.send 5 .header 0 84 ⟨-1, ECONNRESET⟩, .send 5 .body 0 13 ⟨-1, EPIPE⟩, .close 5,
          .event_free 0, .event_free 1, .free_ctx] ∧
      ¬ (⟨-1, ECONNRESET⟩ : SysRet).transient ∧
      (conn_handler 5 ⟨4, 0⟩ "ping".toList [⟨-1, ECONNRESET⟩, ⟨13, 0⟩]).trace =
        [.recv 5 1024 ⟨4, 0⟩, .usleep 20000, .send 5 .header 0 84 ⟨-1, ECONNRESET⟩, .close 5] := by
  decide

/-- C6 fails on the code: a receive that returns -1 with `EAGAIN` (Model B)
or with `EINTR` (Model A) is handled like a disconnect, the descriptor is
closed and nothing is retried. -/
theorem recv_transient_closes :
    (⟨-1, EAGAIN⟩ : SysRet).transient ∧ (⟨-1, EINTR⟩ : SysRet).transient ∧
      http_read_cb 5 ⟨5, some 0, some 1⟩ ⟨-1, EAGAIN⟩ [] =
        ([.recv 5 1024 ⟨-1, EAGAIN⟩, .close 5, .event_free 0, .event_free 1, .free_ctx], false) ∧
      callback_chain ⟨5, some 0, some 1⟩ ⟨-1, EAGAIN⟩ [] [⟨84, 0⟩, ⟨13, 0⟩] =
        ⟨[.recv 5 1024 ⟨-1, EAGAIN⟩, .close 5, .event_free 0, .event_free 1, .free_ctx],
          some .peerClosed⟩ ∧
      conn_handler 5 ⟨-1, EINTR⟩ [] [⟨84, 0⟩, ⟨13, 0⟩] =
        ⟨[.recv 5 1024 ⟨-1, EINTR⟩, .close 5], some .peerClosed⟩ := by
  decide

/-- C7: monotone lifecycle.  For every receive result and every script of
send results the trace of either adapter starts with the receive and is
accepted by the lifecycle Reading, Delaying, Writing, Closed: one receive,
first; the 20000 microsecond delay requested only after a positive receive;
sends only after the delay; nothing but the release of events and context
after `close`.  The stage reached is `Closed` exactly when the handler has
returned.  In Model B the removal of the read event stands between the
receive and `evtimer_add`. -/
theorem monotone_lifecycle (fd : Int) (ctx : ConnCtx) (n : SysRet) (buf : List Char)
    (script : List SysRet) :
    (∃ rest, (conn_handler fd n buf script).trace = .recv fd 1024 n :: rest) ∧
    (∃ s, lifecycle fd .Reading (conn_handler fd n buf script).trace = some s ∧
      ((conn_handler fd n buf script).exit ≠ none ↔ s = .Closed)) ∧
    (∃ rest, (callback_chain ctx n buf script).trace = .recv ctx.fd 1024 n :: rest) ∧
    (∃ s, lifecycle ctx.fd .Reading (callback_chain ctx n buf script).trace = some s ∧
      ((callback_chain ctx n buf script).exit ≠ none ↔ s = .Closed)) ∧
    (0 < n.ret → ∃ rest, (callback_chain ctx n buf script).trace =
      .recv ctx.fd 1024 n :: ((match ctx.read_ev with | some e => [.event_del e] | none => []) ++
        .evtimer_add ctx.timer_ev 0 20000 :: rest)) := by
  refine ⟨?_, lifecycle_conn_handler fd n buf script, ?_,
    lifecycle_callback_chain ctx n buf script, ?_⟩
  · by_cases hn : n.ret ≤ 0
    · exact ⟨[.close fd], by simp [conn_handler, hn]⟩
    · rw [conn_handler_pos fd n buf script (not_le.mp hn)]
      split <;> exact ⟨_, rfl⟩
  · by_cases hn : n.ret ≤ 0
    · rw [callback_chain_nonpos ctx n buf script hn]; exact ⟨_, rfl⟩
    · cases ht : ctx.timer_ev with
      | none =>
        exact ⟨(match ctx.read_ev with | some e => [Ev.event_del e] | none => []) ++
          [.evtimer_add none 0 20000], by simp [callback_chain, http_read_cb, hn, ht]⟩
      | some t => rw [callback_chain_pos ctx t n buf script (not_le.mp hn) ht]; exact ⟨_, rfl⟩
  · intro hn
    have hn' : ¬ n.ret ≤ 0 := not_le.mpr hn
    cases ht : ctx.timer_ev with
    | none => exact ⟨[], by simp [callback_chain, http_read_cb, hn', ht]⟩
    | some t =>
      rw [callback_chain_pos ctx t n buf script hn ht]
      exact ⟨(delayed_send_cb ctx script).trace, by simp⟩

/-- The request `ping` in Model B. -/
theorem monotone_lifecycle_witness :
    (0 : Int) < 4 ∧
      ∃ rest, (callback_chain ⟨5, some 0, some 1⟩ ⟨4, 0⟩ "ping".toList [⟨84, 0⟩, ⟨13, 0⟩]).trace =
        .recv 5 1024 ⟨4, 0⟩ :: ([.event_del 0] ++ .evtimer_add (some 1) 0 20000 :: rest) :=
  ⟨by decide,
    (monotone_lifecycle 5 ⟨5, some 0, some 1⟩ ⟨4, 0⟩ "ping".toList [⟨84, 0⟩, ⟨13, 0⟩]).2.2.2.2
      (by decide)⟩

/-- C10 fails on the code: on a positive receive and a first send that fails
with `ECONNRESET`, Model A issues the header send only and delivers nothing,
Model B issues the body send as well and delivers the body. -/
theorem adapters_diverge :
    sendRequests (conn_handler 5 ⟨4, 0⟩ "ping".toList [⟨-1, ECONNRESET⟩, ⟨13, 0⟩]).trace =
        [(.header, 0, 84)] ∧
      sendRequests (callback_chain ⟨5, some 0, some 1⟩ ⟨4, 0⟩ "ping".toList
        [⟨-1, ECONNRESET⟩, ⟨13, 0⟩]).trace = [(.header, 0, 84), (.body, 0, 13)] ∧
      wire (conn_handler 5 ⟨4, 0⟩ "ping".toList [⟨-1, ECONNRESET⟩, ⟨13, 0⟩]).trace = [] ∧
      wire (callback_chain ⟨5, some 0, some 1⟩ ⟨4, 0⟩ "ping".toList
        [⟨-1, ECONNRESET⟩, ⟨13, 0⟩]).trace = body := by
  decide

end CoroutineLib
